import Mathlib

/-!
Verification of the fetch-validate-normalize-write pipeline in
`get_r2_data.py`.

The development shallowly embeds the Python code into Lean:

* decoded JSON documents become the inductive type `JVal` (Python `dict`s
  are association lists of string keys, Python numbers are rationals so
  that both ints and floats such as `0.5` are representable, and Python
  `bool` is kept as a separate constructor whose numeric behaviour under
  `isinstance(-, (int, float))` and `==` is modelled explicitly);
* Python operations that can raise (`d[k]` on a non-dict, `.get` on a
  non-dict, `del`) are modelled with `Except String`, the error string
  standing for the exception text;
* `process_file`, `normalize_result`, `is_valid_result`, the result
  collection loop of `main`, `write_batch` and `filter_data` are each
  translated statement by statement from the source.
-/

namespace R2Data

/-- Decoded JSON value, the data that `json.loads` hands to the pipeline.
Numbers are rationals: Python ints and floats are both `jnum` (the claims
exercise only values like `0`, `1`, `0.5` where int/float distinction is
unobservable); Python booleans are `jbool`. Objects are association lists
of string keys, as produced by JSON decoding (Python dicts never hold a
duplicate key). -/
inductive JVal : Type where
  | jnull : JVal
  | jbool : Bool → JVal
  | jnum : ℚ → JVal
  | jstr : String → JVal
  | jarr : List JVal → JVal
  | jobj : List (String × JVal) → JVal

namespace JVal

/-- First binding of key `k` in an object field list (Python dict lookup:
a dict holds at most one binding per key, so first = the binding). -/
def objLookup (fs : List (String × JVal)) (k : String) : Option JVal :=
  (fs.find? (fun kv => kv.1 = k)).map (fun kv => kv.2)

/-- Key membership in an object field list (Python `k in d`). -/
def objMem (fs : List (String × JVal)) (k : String) : Bool :=
  fs.any (fun kv => kv.1 = k)

/-- Python `d[k] = v` on a dict: replace the binding when the key is
present, append otherwise. (Replacing every occurrence and appending at
the end coincide with dict update on the duplicate-free field lists that
JSON decoding produces.) -/
def objSet (fs : List (String × JVal)) (k : String) (v : JVal) :
    List (String × JVal) :=
  if fs.any (fun kv => kv.1 = k) then
    fs.map (fun kv => if kv.1 = k then (k, v) else kv)
  else fs ++ [(k, v)]

/-- Python `del d[k]` on a dict: drop the binding. -/
def objDel (fs : List (String × JVal)) (k : String) : List (String × JVal) :=
  fs.filter (fun kv => ¬ kv.1 = k)

/-- Keys of an object, in order. -/
def keys : JVal → List String
  | .jobj fs => fs.map (fun kv => kv.1)
  | _ => []

end JVal

open JVal

/-- Python `str.strip()`: drop leading and trailing whitespace. Defined
on the character list so that it evaluates by reduction. -/
def pyStrip (s : String) : String :=
  String.mk (((s.data.dropWhile Char.isWhitespace).reverse.dropWhile
    Char.isWhitespace).reverse)

/-- Substring test, Python `needle in s` for strings. -/
def strContains (s pat : String) : Bool :=
  (List.range (s.length + 1)).any (fun i => pat.isPrefixOf (s.drop i))

/-- Python membership `k in v` where `k` is a string: key membership for
dicts, element equality for lists (only a string element can `==` a
string), substring test for strings, and a `TypeError` otherwise. -/
def pyIn (k : String) (v : JVal) : Except String Bool :=
  match v with
  | .jobj fs => .ok (objMem fs k)
  | .jarr xs => .ok (xs.any (fun x => match x with
      | .jstr t => t = k
      | _ => false))
  | .jstr s => .ok (strContains s k)
  | _ => .error "TypeError: argument of type is not iterable"

/-- Python subscript `v[k]` with a string key: dict lookup (`KeyError`
when absent), `TypeError` on any non-dict. -/
def pyIndex (v : JVal) (k : String) : Except String JVal :=
  match v with
  | .jobj fs =>
    match objLookup fs k with
    | some x => .ok x
    | none => .error ("KeyError: " ++ k)
  | _ => .error "TypeError: value is not subscriptable by a string"

/-- Python item assignment `v[k] = x`: dict update, `TypeError` on any
non-dict. -/
def pySetItem (v : JVal) (k : String) (x : JVal) : Except String JVal :=
  match v with
  | .jobj fs => .ok (.jobj (objSet fs k x))
  | _ => .error "TypeError: value does not support item assignment"

/-- Python `del v[k]`: dict deletion, `TypeError` on any non-dict. The
callers in the source always test membership first, so the `KeyError`
branch is unreachable there. -/
def pyDelItem (v : JVal) (k : String) : Except String JVal :=
  match v with
  | .jobj fs =>
    if objMem fs k then .ok (.jobj (objDel fs k)) else .error ("KeyError: " ++ k)
  | _ => .error "TypeError: value does not support item deletion"

/-- Python `d.get(k, default)`: total on dicts, `AttributeError` on any
other value (which has no `.get` method). -/
def pyGetAttr (v : JVal) (k : String) (default : JVal) : Except String JVal :=
  match v with
  | .jobj fs => .ok ((objLookup fs k).getD default)
  | _ => .error "AttributeError: value has no attribute get"

/-- Python truthiness of a decoded JSON value. -/
def pyTruthy : JVal → Bool
  | .jnull => false
  | .jbool b => b
  | .jnum q => decide (q ≠ 0)
  | .jstr s => decide (s ≠ "")
  | .jarr [] => false
  | .jarr (_ :: _) => true
  | .jobj [] => false
  | .jobj (_ :: _) => true

/-- Python `v != {}`: only the empty dict compares equal to `{}`. -/
def pyNeEmptyDict (v : JVal) : Bool :=
  match v with
  | .jobj [] => false
  | _ => true

/-- Escape for the JSON string serializer (quote and backslash; the
claims only exercise strings without control characters). -/
def jsonEscapeChar (c : Char) : String :=
  if c = '"' then "\\\"" else if c = '\\' then "\\\\" else String.singleton c

/-- Body of a serialized JSON string. -/
def jsonEscape (s : String) : String :=
  s.foldl (fun acc c => acc ++ jsonEscapeChar c) ""

/-- Serialization of a number as `json.dumps` renders it. Integral
values print as integers (the only numbers the claims serialize);
non-integral rationals use the rational rendering in place of Python
float formatting. -/
def dumpNum (q : ℚ) : String :=
  if q.den = 1 then toString q.num else toString q.num ++ "/" ++ toString q.den

mutual

/-- Model of `json.dumps` with the default separators used by
`normalize_result` (`", "` between items, `": "` after keys). -/
def dumps : JVal → String
  | .jnull => "null"
  | .jbool true => "true"
  | .jbool false => "false"
  | .jnum q => dumpNum q
  | .jstr s => "\"" ++ jsonEscape s ++ "\""
  | .jarr xs => "[" ++ dumpsArr xs ++ "]"
  | .jobj fs => "\x7b" ++ dumpsObj fs ++ "\x7d"

/-- Comma-separated serialization of array items. -/
def dumpsArr : List JVal → String
  | [] => ""
  | [x] => dumps x
  | x :: y :: rest => dumps x ++ ", " ++ dumpsArr (y :: rest)

/-- Comma-separated serialization of object fields. -/
def dumpsObj : List (String × JVal) → String
  | [] => ""
  | [(k, v)] => "\"" ++ jsonEscape k ++ "\": " ++ dumps v
  | (k, v) :: kv :: rest =>
    "\"" ++ jsonEscape k ++ "\": " ++ dumps v ++ ", " ++ dumpsObj (kv :: rest)

end

/-! ## The Record Normalizer (`normalize_result`, src/get_r2_data.py lines 43-70)

The function body is three independent blocks, one per flattened field;
each is translated as a stage. The initial
`normalized = json.loads(json.dumps(item))` makes a structural copy, so
the stages operate on a value of their own and the argument is never
mutated; in the pure embedding the copy is the value itself. -/

/-- Block one of `normalize_result`:

    if 'challenge' in normalized and 'extra' in normalized['challenge']:
        normalized['challenge']['extra_json'] = json.dumps(normalized['challenge']['extra'])
        del normalized['challenge']['extra']

In-place mutation of the inner dict is rendered as rebuilding it and
storing it back at the same key. -/
def stageChallenge (normalized : JVal) : Except String JVal := do
  let b1 ← pyIn "challenge" normalized
  if b1 then do
    let ch0 ← pyIndex normalized "challenge"
    let b2 ← pyIn "extra" ch0
    if b2 then do
      let ex ← pyIndex ch0 "extra"
      let ch1 ← pySetItem ch0 "extra_json" (.jstr (dumps ex))
      let ch2 ← pyDelItem ch1 "extra"
      pySetItem normalized "challenge" ch2
    else pure normalized
  else pure normalized

/-- Block two of `normalize_result`:

    if ('evaluation' in normalized and 'extra' in normalized['evaluation'] and
        normalized['evaluation']['extra'] and normalized['evaluation']['extra'] != {}):
        normalized['evaluation']['extra_json'] = json.dumps(normalized['evaluation']['extra'])
        del normalized['evaluation']['extra']
    elif 'evaluation' in normalized and 'extra' in normalized['evaluation']:
        del normalized['evaluation']['extra']

The truthiness test indexes `normalized['evaluation']['extra']`, so the
index happens whenever the first two conjuncts hold, before either
branch is chosen. -/
def stageEvaluation (normalized : JVal) : Except String JVal := do
  let b1 ← pyIn "evaluation" normalized
  if b1 then do
    let ev0 ← pyIndex normalized "evaluation"
    let b2 ← pyIn "extra" ev0
    if b2 then do
      let ex ← pyIndex ev0 "extra"
      if pyTruthy ex && pyNeEmptyDict ex then do
        let ev1 ← pySetItem ev0 "extra_json" (.jstr (dumps ex))
        let ev2 ← pyDelItem ev1 "extra"
        pySetItem normalized "evaluation" ev2
      else do
        let ev1 ← pyDelItem ev0 "extra"
        pySetItem normalized "evaluation" ev1
    else pure normalized
  else pure normalized

/-- Block three of `normalize_result`:

    if 'miner' in normalized and 'chute' in normalized['miner'] and normalized['miner']['chute'] is not None:
        normalized['miner']['chute_json'] = json.dumps(normalized['miner']['chute'])
        del normalized['miner']['chute']
-/
def stageMiner (normalized : JVal) : Except String JVal := do
  let b1 ← pyIn "miner" normalized
  if b1 then do
    let mi0 ← pyIndex normalized "miner"
    let b2 ← pyIn "chute" mi0
    if b2 then do
      let chu ← pyIndex mi0 "chute"
      match chu with
      | .jnull => pure normalized
      | _ => do
        let mi1 ← pySetItem mi0 "chute_json" (.jstr (dumps chu))
        let mi2 ← pyDelItem mi1 "chute"
        pySetItem normalized "miner" mi2
    else pure normalized
  else pure normalized

/-- The Record Normalizer, `normalize_result` (lines 43-70): structural
copy of the argument followed by the three flattening blocks. An error
value models a raised exception, which the caller `process_file` turns
into a per-key skip. -/
def normalize_result (item : JVal) : Except String JVal := do
  let normalized := item
  let normalized ← stageChallenge normalized
  let normalized ← stageEvaluation normalized
  stageMiner normalized

/-! ## The Record Validator (`is_valid_result`, lines 72-83) and the score
check of `process_file` (lines 111-118 and 122-129) -/

/-- Required top-level keys, `REQUIRED_KEYS` (line 41). -/
def REQUIRED_KEYS : List String :=
  ["version", "miner", "challenge", "response", "evaluation"]

/-- The required-field contract on one object field list:
`all(key in item for key in REQUIRED_KEYS)`. -/
def requiredKeysB (fs : List (String × JVal)) : Bool :=
  REQUIRED_KEYS.all (fun k => objMem fs k)

/-- The Record Validator, `is_valid_result` (lines 72-83): a list is
valid when some element is a dict with every required key, a dict is
valid when it has every required key, anything else is invalid. The
function inspects key presence only. -/
def is_valid_result (json_data : JVal) : Bool :=
  match json_data with
  | .jarr items => items.any (fun item =>
      match item with
      | .jobj fs => requiredKeysB fs
      | _ => false)
  | .jobj fs => requiredKeysB fs
  | _ => false

/-- Python `isinstance(score, (int, float))`: true for numbers and also
for booleans, since `bool` is a subclass of `int` in Python. -/
def isNumberLike (v : JVal) : Bool :=
  match v with
  | .jnum _ => true
  | .jbool _ => true
  | _ => false

/-- Python `score in [0, 1]`, i.e. `score == 0 or score == 1`: numeric
comparison, under which `0.0 == 0`, `1.0 == 1`, `True == 1` and
`False == 0`. -/
def scoreIn01 (v : JVal) : Bool :=
  match v with
  | .jnum q => decide (q = 0) || decide (q = 1)
  | .jbool _ => true
  | _ => false

/-- The score-domain guard of `process_file`:
`isinstance(score, (int, float)) and score in [0, 1]`. -/
def scoreValid (v : JVal) : Bool := isNumberLike v && scoreIn01 v

/-- Python `int(score)` (truncation toward zero), reached only under
`scoreValid`, i.e. on values comparing equal to `0` or `1`. -/
def pyIntOf (v : JVal) : Int :=
  match v with
  | .jnum q => if q < 0 then -((-q).floor) else q.floor
  | .jbool b => if b then 1 else 0
  | _ => 0

/-- Python `str(score)` as interpolated into the invalid-score message;
number rendering matches `dumpNum` on the integral values the claims
exercise. -/
def pyStr (v : JVal) : String :=
  match v with
  | .jnull => "None"
  | .jbool true => "True"
  | .jbool false => "False"
  | .jnum q => dumpNum q
  | .jstr s => s
  | v => dumps v

/-- The score read `item.get('evaluation', {}).get('score')`: a missing
key yields `None` (modelled `jnull`), a non-dict `evaluation` value
raises `AttributeError`. -/
def getScore (item : JVal) : Except String JVal := do
  let ev ← pyGetAttr item "evaluation" (.jobj [])
  pyGetAttr ev "score" .jnull

/-- The score store `score = int(score); item['evaluation']['score'] = score`. -/
def setScoreInt (item : JVal) (score : JVal) : Except String JVal := do
  let ev ← pyIndex item "evaluation"
  let ev1 ← pySetItem ev "score" (.jnum ((pyIntOf score : Int) : ℚ))
  pySetItem item "evaluation" ev1

/-! ## `process_file` (lines 85-138) -/

/-- Outcome of the fetch-and-decode prefix of `process_file` (lines
89-94): the remote fetch and body read may raise, `content.decode` may
raise `UnicodeDecodeError`, otherwise the worker holds the decoded
text. The two raising cases are caught by the outer
`except Exception` handler. -/
inductive Fetched : Type where
  | fetchErr (e : String) : Fetched
  | decodeErr (e : String) : Fetched
  | text (s : String) : Fetched

/-- One iteration of the array loop (lines 109-119): a non-dict element
or one missing a required key is passed over; an element with an invalid
score hits `continue`; otherwise the coerced score is stored and the
normalized element appended. Raised exceptions propagate. -/
def processItem (acc : List JVal) (item : JVal) : Except String (List JVal) :=
  match item with
  | .jobj fs =>
    if requiredKeysB fs then do
      let score ← getScore item
      if scoreValid score then do
        let item1 ← setScoreInt item score
        let r ← normalize_result item1
        pure (acc ++ [r])
      else pure acc
    else pure acc
  | _ => pure acc

/-- The array loop of `process_file`, accumulating `normalized_items`. -/
def processItems (items : List JVal) : Except String (List JVal) :=
  items.foldlM processItem []

/-- The body of `process_file` from a successfully parsed JSON value on
(lines 103-132), with the surrounding exception handler of lines 137-138
already applied: an exception raised here becomes the
`Error processing ...` skip. -/
def processParsed (json_data : JVal) (key : String) :
    Option (List JVal) × Option String :=
  if ¬ is_valid_result json_data then
    (none, some ("Invalid result (missing keys): " ++ key))
  else
    match json_data with
    | .jarr items =>
      match processItems items with
      | .ok l => (some l, none)
      | .error e => (none, some ("Error processing " ++ key ++ ": " ++ e))
    | _ =>
      match (do
        let score ← getScore json_data
        if scoreValid score then do
          let d1 ← setScoreInt json_data score
          let r ← normalize_result d1
          pure (Sum.inl [r])
        else
          pure (Sum.inr ("Invalid score value (" ++ pyStr score ++ ") in " ++ key))
        : Except String (Sum (List JVal) String)) with
      | .ok (.inl l) => (some l, none)
      | .ok (.inr msg) => (none, some msg)
      | .error e => (none, some ("Error processing " ++ key ++ ": " ++ e))

/-- One unit of work, `process_file` (lines 85-138). The fetch outcome is
abstracted as `Fetched`; JSON decoding (`json.loads`) is an external
collaborator passed in as `parse`, whose error value models
`json.JSONDecodeError`. The return value mirrors the source: a pair of
optional item list and optional skip reason. -/
def process_file (f : Fetched) (key : String)
    (parse : String → Except String JVal) :
    Option (List JVal) × Option String :=
  match f with
  | .fetchErr e => (none, some ("Error processing " ++ key ++ ": " ++ e))
  | .decodeErr e => (none, some ("Error processing " ++ key ++ ": " ++ e))
  | .text s =>
    let content_str := pyStrip s
    if content_str = "[]" ∨ content_str = "" then
      (none, some ("Empty file: " ++ key))
    else
      match parse content_str with
      | .error e => (none, some ("JSON decode error in " ++ key ++ ": " ++ e))
      | .ok json_data => processParsed json_data key

/-! ## Result collection in `main` (lines 212-220) and the Batched Sink -/

/-- The coordinator counters of `main` (lines 197-200). -/
structure Tally : Type where
  processed_count : Nat
  error_count : Nat
  errors : List String
  write_buffer : List JVal

/-- Python truthiness of the `items` component: `if items:` is false both
for `None` and for the empty list. -/
def itemsTruthy : Option (List JVal) → Bool
  | some (_ :: _) => true
  | _ => false

/-- The per-result branch of the collection loop (lines 213-220):

    if items:
        write_buffer.extend(items)
        processed_count += 1
    else:
        error_count += 1
        if error:
            errors.append(error)
-/
def collectResult (t : Tally) (r : Option (List JVal) × Option String) : Tally :=
  if itemsTruthy r.1 then
    { t with write_buffer := t.write_buffer ++ r.1.getD [],
             processed_count := t.processed_count + 1 }
  else
    { t with error_count := t.error_count + 1,
             errors := match r.2 with
               | some e => t.errors ++ [e]
               | none => t.errors }

/-! ## The filter pass (`filter_data`, lines 249-330) -/

/-- Python `v == u` for an int filter argument `u` (`uid == filter_uid`):
numeric comparison, booleans compare by their numeric value, any other
value is unequal to an int. -/
def pyEqInt (v : JVal) (u : Int) : Bool :=
  match v with
  | .jnum q => decide (q = (u : ℚ))
  | .jbool b => decide ((if b then (1 : ℚ) else 0) = (u : ℚ))
  | _ => false

/-- Python `v == m` for a string filter argument (`model == filter_model`). -/
def pyEqStr (v : JVal) (m : String) : Bool :=
  match v with
  | .jstr s => decide (s = m)
  | _ => false

/-- Python `v is not None`. -/
def notNone (v : JVal) : Bool :=
  match v with
  | .jnull => false
  | _ => true

/-- The per-line body of `filter_data` (lines 275-327). The argument is
the outcome of `json.loads(line)`; a parse failure or any exception
raised while extracting fields lands in `except Exception: continue`,
returning `none` (line skipped). `some rec` is the record written to the
output. Translated statement by statement, keeping the evaluation order
of the field reads. -/
def filter_line (parsed : Except String JVal) (filter_uid : Option Int)
    (filter_model : Option String) (filter_score : String) : Option JVal :=
  match (do
    let row ← parsed
    let evaluation ← pyGetAttr row "evaluation" (.jobj [])
    let challenge ← pyGetAttr row "challenge" (.jobj [])
    let response ← pyGetAttr row "response" (.jobj [])
    let env ← pyGetAttr challenge "env" .jnull
    let prompt ← pyGetAttr challenge "prompt" .jnull
    let resp ← pyGetAttr response "response" .jnull
    let miner ← pyGetAttr row "miner" (.jobj [])
    let model ← pyGetAttr miner "model" .jnull
    let uid ← pyGetAttr miner "uid" .jnull
    let score ← pyGetAttr evaluation "score" .jnull
    let evaluation_extra_json ← pyGetAttr evaluation "extra_json" .jnull
    if scoreValid score then
      let scoreInt : Int := pyIntOf score
      let score_match : Bool :=
        decide (filter_score = "both") ||
        (decide (filter_score = "0") && decide (scoreInt = 0)) ||
        (decide (filter_score = "1") && decide (scoreInt = 1))
      if notNone env && notNone prompt && notNone resp && notNone model &&
          score_match &&
          (match filter_uid with
           | none => true
           | some u => pyEqInt uid u) &&
          (match filter_model with
           | none => true
           | some m => pyEqStr model m) then
        pure (some (JVal.jobj
          [("uid", uid), ("env", env), ("prompt", prompt),
           ("response", resp), ("model", model),
           ("score", .jnum (scoreInt : ℚ)),
           ("evaluation_extra_json", evaluation_extra_json)]))
      else pure none
    else pure none
    : Except String (Option JVal)) with
  | .ok r => r
  | .error _ => none

/-- The filter pass `filter_data` over the decoded input lines: the
written records, in order. The reported `filtered_count` is the length
of this list. -/
def filter_data (lines : List (Except String JVal)) (filter_uid : Option Int)
    (filter_model : Option String) (filter_score : String) : List JVal :=
  lines.filterMap (fun l => filter_line l filter_uid filter_model filter_score)

/-! ## The Batched Sink (`write_batch`, lines 140-145)

    async def write_batch(output_file, batch, file_lock):
        async with file_lock:
            with open(output_file, 'a', encoding='utf-8') as f:
                for item in batch:
                    f.write(json.dumps(item, ensure_ascii=False) + '\n')

A flush of one batch is modelled as a task that acquires the single
`file_lock`, appends its serialized lines to the shared file one write
at a time, and releases the lock. The step relation below lets any
number of such tasks interleave arbitrarily; appending one line is the
atomic unit, so the model can express interleaved or torn batches and
the theorems show the lock discipline prevents them. -/

/-- Progress of one flush task: not yet started, holding the lock with
`k` lines already appended, or finished. -/
inductive FlushStat : Type where
  | idle : FlushStat
  | writing (k : Nat) : FlushStat
  | done : FlushStat
deriving DecidableEq

/-- Shared state of `n` concurrent `write_batch` calls: per-task
progress, the holder of `file_lock`, the lines of the output file, and
the (ghost) order in which tasks acquired the lock. -/
structure SinkCfg (n : Nat) : Type where
  stat : Fin n → FlushStat
  lock : Option (Fin n)
  file : List String
  order : List (Fin n)

/-- Initial state: no flush started, lock free, output file empty. -/
def sinkInit (n : Nat) : SinkCfg n :=
  { stat := fun _ => .idle, lock := none, file := [], order := [] }

/-- Interleaving semantics of `n` concurrent `write_batch` calls with
batches `batches`: a task may acquire the free lock (`async with
file_lock` entry), append the next line of its batch while holding the
lock, and release the lock once its batch is exhausted (`async with`
exit). -/
inductive SinkStep (n : Nat) (batches : Fin n → List String) :
    SinkCfg n → SinkCfg n → Prop where
  | acquire (i : Fin n) (c : SinkCfg n)
      (hi : c.stat i = .idle) (hl : c.lock = none) :
      SinkStep n batches c
        { stat := Function.update c.stat i (.writing 0), lock := some i,
          file := c.file, order := c.order ++ [i] }
  | write (i : Fin n) (k : Nat) (c : SinkCfg n)
      (hi : c.stat i = .writing k) (hl : c.lock = some i)
      (hk : k < (batches i).length) :
      SinkStep n batches c
        { stat := Function.update c.stat i (.writing (k + 1)), lock := some i,
          file := c.file ++ [(batches i).get ⟨k, hk⟩], order := c.order }
  | release (i : Fin n) (c : SinkCfg n)
      (hi : c.stat i = .writing (batches i).length) (hl : c.lock = some i) :
      SinkStep n batches c
        { stat := Function.update c.stat i .done, lock := none,
          file := c.file, order := c.order }

/-- Reachability under the interleaving semantics. -/
def SinkReach (n : Nat) (batches : Fin n → List String)
    (c : SinkCfg n) : Prop :=
  Relation.ReflTransGen (SinkStep n batches) (sinkInit n) c

/-! ## Spec-side predicates

These definitions follow the wording of the specification, for
comparison with the code above. -/

/-- A value the flat-schema invariant forbids directly under a section:
a JSON object or array. -/
def isNestedVal : JVal → Bool
  | .jobj _ => true
  | .jarr _ => true
  | _ => false

/-- The flat-schema condition on one section value (the value stored at
`challenge`, `evaluation` or `miner`): no field holds an object or an
array. The spec excepts the serialized-string `*_json` fields, but a
serialized string is not an object or array, so the exception adds
nothing. Non-object sections have no fields directly under them. -/
def flatSection (v : JVal) : Bool :=
  match v with
  | .jobj fs => fs.all (fun kv => !isNestedVal kv.2)
  | _ => true

/-- The required-field contract on a whole record. -/
def requiredRecordB (v : JVal) : Bool :=
  match v with
  | .jobj fs => requiredKeysB fs
  | _ => false

/-- The flat-schema invariant of spec section 3 on a whole record. -/
def flatRecord (v : JVal) : Bool :=
  match v with
  | .jobj fs =>
    (match objLookup fs "challenge" with
     | some w => flatSection w
     | none => true) &&
    (match objLookup fs "evaluation" with
     | some w => flatSection w
     | none => true) &&
    (match objLookup fs "miner" with
     | some w => flatSection w
     | none => true)
  | _ => false

/-- A section whose only object/array fields sit at the one key the
normalizer flattens (`extra` under `challenge` and `evaluation`, `chute`
under `miner`). -/
def nestedOnlyAt (v : JVal) (allowed : String) : Bool :=
  match v with
  | .jobj fs => fs.all (fun kv => !isNestedVal kv.2 || decide (kv.1 = allowed))
  | _ => true

/-- Hypothesis of the amended flat-schema claim: each of the three
sections of the record keeps its object/array values at the designated
flattened key only. -/
def sectionsDesignated (fs : List (String × JVal)) : Bool :=
  (match objLookup fs "challenge" with
   | some w => nestedOnlyAt w "extra"
   | none => true) &&
  (match objLookup fs "evaluation" with
   | some w => nestedOnlyAt w "extra"
   | none => true) &&
  (match objLookup fs "miner" with
   | some w => nestedOnlyAt w "chute"
   | none => true)

/-- An already-canonical record in the sense of the idempotence claim:
an object with no `challenge.extra`, no `evaluation.extra` and no
`miner.chute` sub-field. -/
def alreadyCanonical (x : JVal) : Bool :=
  match x with
  | .jobj fs =>
    (match objLookup fs "challenge" with
     | none => true
     | some (.jobj gs) => !objMem gs "extra"
     | some _ => false) &&
    (match objLookup fs "evaluation" with
     | none => true
     | some (.jobj gs) => !objMem gs "extra"
     | some _ => false) &&
    (match objLookup fs "miner" with
     | none => true
     | some (.jobj gs) => !objMem gs "chute"
     | some _ => false)
  | _ => false

/-- Spec-side field access for the Filtered Record contract: the field
`field` of section `sect` of the record, when the record and the section
are objects and the field is present. -/
def specField (row : JVal) (sect field : String) : Option JVal :=
  match row with
  | .jobj fs =>
    match objLookup fs sect with
    | some (.jobj gs) => objLookup gs field
    | _ => none
  | _ => none

/-- Spec wording: the field is present and non-null. -/
def specPresent (row : JVal) (sect field : String) : Bool :=
  match specField row sect field with
  | some v => notNone v
  | none => false

/-- Modelled from the spec: the retention condition of the filter pass.
A line is retained iff it decodes to JSON, its `evaluation.score`
coerces to exactly 0 or 1, `env`, `prompt`, `response` and `model` are
present and non-null, and the score/uid/model predicates match. -/
def retainSpec (parsed : Except String JVal) (filter_uid : Option Int)
    (filter_model : Option String) (filter_score : String) : Bool :=
  match parsed with
  | .error _ => false
  | .ok row =>
    (match specField row "evaluation" "score" with
     | some sc => scoreValid sc
     | none => false) &&
    specPresent row "challenge" "env" &&
    specPresent row "challenge" "prompt" &&
    specPresent row "response" "response" &&
    specPresent row "miner" "model" &&
    (match specField row "evaluation" "score" with
     | some sc =>
       decide (filter_score = "both") ||
       (decide (filter_score = "0") && decide (pyIntOf sc = 0)) ||
       (decide (filter_score = "1") && decide (pyIntOf sc = 1))
     | none => false) &&
    (match filter_uid with
     | none => true
     | some u =>
       match specField row "miner" "uid" with
       | some v => pyEqInt v u
       | none => false) &&
    (match filter_model with
     | none => true
     | some m =>
       match specField row "miner" "model" with
       | some v => pyEqStr v m
       | none => false)

/-! ## Elementary rewriting lemmas -/

theorem except_ok_bind {α β : Type} (a : α) (f : α → Except String β) :
    (Except.ok a >>= f) = f a := rfl

theorem except_error_bind {α β : Type} (e : String) (f : α → Except String β) :
    ((Except.error e : Except String α) >>= f) = .error e := rfl

theorem pyGetAttr_obj (fs : List (String × JVal)) (k : String) (d : JVal) :
    pyGetAttr (.jobj fs) k d = .ok ((objLookup fs k).getD d) := rfl

theorem objLookup_nil (k : String) : objLookup [] k = none := rfl

theorem objLookup_cons (kv : String × JVal) (fs : List (String × JVal))
    (k : String) :
    objLookup (kv :: fs) k =
      if kv.1 = k then some kv.2 else objLookup fs k := by
  by_cases h : kv.1 = k <;> simp [objLookup, List.find?_cons, h]

theorem objMem_nil (k : String) : objMem [] k = false := rfl

theorem objMem_cons (kv : String × JVal) (fs : List (String × JVal))
    (k : String) :
    objMem (kv :: fs) k = (decide (kv.1 = k) || objMem fs k) := by
  simp [objMem, List.any_cons]

theorem objMem_eq_isSome (fs : List (String × JVal)) (k : String) :
    objMem fs k = (objLookup fs k).isSome := by
  induction fs with
  | nil => rfl
  | cons kv fs ih =>
    rw [objMem_cons, objLookup_cons]
    by_cases h : kv.1 = k <;> simp [h, ih]

theorem objMem_keys (fs : List (String × JVal)) (k : String) :
    objMem fs k = (fs.map Prod.fst).any (fun s => s = k) := by
  induction fs with
  | nil => rfl
  | cons kv fs ih => simp [objMem_cons, ih]

theorem objMem_congr_keys {fs fs' : List (String × JVal)}
    (h : fs'.map Prod.fst = fs.map Prod.fst) (k : String) :
    objMem fs' k = objMem fs k := by
  rw [objMem_keys, objMem_keys, h]

theorem objLookup_mapSet_self (fs : List (String × JVal)) (k : String)
    (v : JVal) (hmem : objMem fs k = true) :
    objLookup (fs.map (fun kv => if kv.1 = k then (k, v) else kv)) k = some v := by
  induction fs with
  | nil => simp [objMem] at hmem
  | cons kv fs ih =>
    by_cases h : kv.1 = k
    · simp [h, objLookup_cons]
    · have hmem' : objMem fs k = true := by
        rw [objMem_cons] at hmem
        simpa [h] using hmem
      simp only [List.map_cons, if_neg h]
      rw [objLookup_cons]
      simp [h, ih hmem']

theorem objLookup_mapSet_ne (fs : List (String × JVal)) (k k' : String)
    (v : JVal) (h : ¬ k' = k) :
    objLookup (fs.map (fun kv => if kv.1 = k then (k, v) else kv)) k' =
      objLookup fs k' := by
  induction fs with
  | nil => rfl
  | cons kv fs ih =>
    by_cases hk : kv.1 = k
    · simp only [List.map_cons, if_pos hk]
      rw [objLookup_cons, objLookup_cons]
      simp only [hk]
      rw [if_neg (fun hh : k = k' => h hh.symm), if_neg (fun hh : k = k' => h hh.symm)]
      exact ih
    · simp only [List.map_cons, if_neg hk]
      rw [objLookup_cons, objLookup_cons]
      by_cases hk' : kv.1 = k' <;> simp [hk', ih]

theorem objLookup_append_ne (fs : List (String × JVal)) (k k' : String)
    (v : JVal) (h : ¬ k' = k) :
    objLookup (fs ++ [(k, v)]) k' = objLookup fs k' := by
  induction fs with
  | nil =>
    rw [List.nil_append, objLookup_cons]
    have hne : ¬ (k, v).1 = k' := fun hh => h (show k' = k from hh.symm)
    simp [hne, objLookup_nil]
  | cons kv fs ih =>
    rw [List.cons_append, objLookup_cons, objLookup_cons]
    by_cases hk' : kv.1 = k' <;> simp [hk', ih]

theorem objLookup_append_self (fs : List (String × JVal)) (k : String)
    (v : JVal) (hmem : objMem fs k = false) :
    objLookup (fs ++ [(k, v)]) k = some v := by
  induction fs with
  | nil => simp [objLookup_cons]
  | cons kv fs ih =>
    rw [objMem_cons] at hmem
    have h1 : ¬ kv.1 = k := by
      intro hk
      simp [hk] at hmem
    have h2 : objMem fs k = false := by simpa [h1] using hmem
    rw [List.cons_append, objLookup_cons]
    simp [h1, ih h2]

theorem objLookup_objSet_self (fs : List (String × JVal)) (k : String)
    (v : JVal) : objLookup (objSet fs k v) k = some v := by
  unfold objSet
  by_cases hmem : fs.any (fun kv => kv.1 = k)
  · rw [if_pos hmem]
    exact objLookup_mapSet_self fs k v (by simpa [objMem] using hmem)
  · rw [if_neg hmem]
    refine objLookup_append_self fs k v ?_
    simp only [objMem]
    exact Bool.eq_false_iff.mpr hmem

theorem objLookup_objSet_ne (fs : List (String × JVal)) (k k' : String)
    (v : JVal) (h : ¬ k' = k) :
    objLookup (objSet fs k v) k' = objLookup fs k' := by
  unfold objSet
  by_cases hmem : fs.any (fun kv => kv.1 = k)
  · rw [if_pos hmem]
    exact objLookup_mapSet_ne fs k k' v h
  · rw [if_neg hmem]
    exact objLookup_append_ne fs k k' v h

theorem mapSet_keys (fs : List (String × JVal)) (k : String) (v : JVal) :
    (fs.map (fun kv => if kv.1 = k then (k, v) else kv)).map Prod.fst =
      fs.map Prod.fst := by
  induction fs with
  | nil => rfl
  | cons kv fs ih =>
    by_cases hk : kv.1 = k
    · simp only [List.map_cons, if_pos hk]
      rw [ih]
      simp [hk]
    · simp only [List.map_cons, if_neg hk]
      rw [ih]

theorem objSet_keys_of_mem (fs : List (String × JVal)) (k : String) (v : JVal)
    (h : objMem fs k = true) :
    (objSet fs k v).map Prod.fst = fs.map Prod.fst := by
  unfold objSet
  rw [if_pos (by simpa [objMem] using h)]
  exact mapSet_keys fs k v

theorem objMem_objDel_self (fs : List (String × JVal)) (k : String) :
    objMem (objDel fs k) k = false := by
  induction fs with
  | nil => rfl
  | cons kv fs ih =>
    simp only [objDel, List.filter_cons, decide_not] at ih ⊢
    by_cases hk : kv.1 = k
    · rw [if_neg (by simp [hk])]
      exact ih
    · rw [if_pos (by simp [hk]), objMem_cons]
      simp [hk, ih]

theorem objLookup_objDel_ne (fs : List (String × JVal)) (k k' : String)
    (h : ¬ k' = k) :
    objLookup (objDel fs k) k' = objLookup fs k' := by
  induction fs with
  | nil => rfl
  | cons kv fs ih =>
    simp only [objDel, List.filter_cons, decide_not] at ih ⊢
    by_cases hk : kv.1 = k
    · have hne : ¬ kv.1 = k' := by rw [hk]; exact fun hh => h hh.symm
      rw [if_neg (by simp [hk]), objLookup_cons, if_neg hne]
      exact ih
    · rw [if_pos (by simp [hk]), objLookup_cons, objLookup_cons]
      by_cases hk' : kv.1 = k' <;> simp [hk', ih]

theorem objMem_objSet (fs : List (String × JVal)) (k k' : String) (v : JVal) :
    objMem (objSet fs k v) k' = (objMem fs k' || decide (k' = k)) := by
  unfold objSet
  by_cases hmem : fs.any (fun kv => kv.1 = k)
  · rw [if_pos hmem]
    rw [objMem_congr_keys (mapSet_keys fs k v)]
    by_cases hk : k' = k
    · subst hk
      simp only [objMem]
      simp [hmem]
    · simp [hk]
  · rw [if_neg hmem]
    simp only [objMem, List.any_append, List.any_cons, List.any_nil]
    by_cases hk : k' = k
    · subst hk
      simp
    · simp only [hk, decide_eq_false_iff_not, Bool.or_eq_false_iff, decide_eq_true_eq]
      simp [hk]
      exact fun hh => absurd hh.symm hk

theorem pyIndex_ok_inv {z v : JVal} {k : String} (h : pyIndex z k = .ok v) :
    ∃ fs, z = .jobj fs ∧ objLookup fs k = some v := by
  cases z with
  | jobj fs =>
    refine ⟨fs, rfl, ?_⟩
    simp only [pyIndex] at h
    cases hl : objLookup fs k with
    | some x => rw [hl] at h; simpa using h
    | none => rw [hl] at h; simp at h
  | jnull => simp [pyIndex] at h
  | jbool b => simp [pyIndex] at h
  | jnum q => simp [pyIndex] at h
  | jstr s => simp [pyIndex] at h
  | jarr xs => simp [pyIndex] at h

/-! ## Post-state of the normalizer stages

After a stage has run, the structure it flattens is gone; these
predicates state that and are exactly what makes a second run of the
stage a no-op. -/

/-- No work left for `stageChallenge`: no `challenge` membership, or a
`challenge` value with no `extra` membership. -/
def challengeClean (z : JVal) : Prop :=
  pyIn "challenge" z = .ok false ∨
  ∃ v, pyIndex z "challenge" = .ok v ∧ pyIn "extra" v = .ok false

/-- No work left for `stageEvaluation`. -/
def evaluationClean (z : JVal) : Prop :=
  pyIn "evaluation" z = .ok false ∨
  ∃ v, pyIndex z "evaluation" = .ok v ∧ pyIn "extra" v = .ok false

/-- No work left for `stageMiner`: additionally a present `chute` whose
value is `None` is left alone. -/
def minerClean (z : JVal) : Prop :=
  pyIn "miner" z = .ok false ∨
  ∃ v, pyIndex z "miner" = .ok v ∧
    (pyIn "chute" v = .ok false ∨ pyIndex v "chute" = .ok .jnull)

theorem stageChallenge_ok {z w : JVal} (h : stageChallenge z = .ok w) :
    challengeClean w ∧
    (w = z ∨ ∃ fs gs ex, z = .jobj fs ∧
      objMem fs "challenge" = true ∧
      objLookup fs "challenge" = some (.jobj gs) ∧
      objLookup gs "extra" = some ex ∧
      w = .jobj (objSet fs "challenge"
        (.jobj (objDel (objSet gs "extra_json" (.jstr (dumps ex))) "extra")))) := by
  cases z with
  | jnull => simp [stageChallenge, pyIn, except_error_bind] at h
  | jbool b => simp [stageChallenge, pyIn, except_error_bind] at h
  | jnum q => simp [stageChallenge, pyIn, except_error_bind] at h
  | jstr s =>
    by_cases hc : strContains s "challenge"
    · simp [stageChallenge, pyIn, hc, pyIndex, except_ok_bind, except_error_bind] at h
    · simp only [stageChallenge, pyIn, hc, except_ok_bind, if_false, Bool.false_eq_true,
        if_neg, pure] at h
      cases h
      exact ⟨Or.inl (by simp [pyIn, hc]), Or.inl rfl⟩
  | jarr xs =>
    by_cases hc : xs.any (fun x => match x with | .jstr t => t = "challenge" | _ => false)
    · simp [stageChallenge, pyIn, hc, pyIndex, except_ok_bind, except_error_bind] at h
    · simp only [stageChallenge, pyIn, hc, except_ok_bind, Bool.false_eq_true,
        if_neg, pure] at h
      cases h
      exact ⟨Or.inl (by simp [pyIn, hc]), Or.inl rfl⟩
  | jobj fs =>
    by_cases hmem : objMem fs "challenge"
    · have hsome : (objLookup fs "challenge").isSome := by
        rw [← objMem_eq_isSome]; exact hmem
      obtain ⟨ch0, hch0⟩ := Option.isSome_iff_exists.mp hsome
      rw [show stageChallenge (.jobj fs) = (do
            let b2 ← pyIn "extra" ch0
            if b2 then do
              let ex ← pyIndex ch0 "extra"
              let ch1 ← pySetItem ch0 "extra_json" (.jstr (dumps ex))
              let ch2 ← pyDelItem ch1 "extra"
              pySetItem (.jobj fs) "challenge" ch2
            else pure (.jobj fs)) from by
        simp [stageChallenge, pyIn, hmem, except_ok_bind, pyIndex, hch0]] at h
      cases ch0 with
      | jnull => simp [pyIn, except_error_bind] at h
      | jbool b => simp [pyIn, except_error_bind] at h
      | jnum q => simp [pyIn, except_error_bind] at h
      | jstr s =>
        by_cases hc : strContains s "extra"
        · simp [pyIn, hc, pyIndex, except_ok_bind, except_error_bind] at h
        · simp only [pyIn, hc, except_ok_bind, Bool.false_eq_true, if_neg, pure] at h
          cases h
          refine ⟨Or.inr ⟨.jstr s, ?_, by simp [pyIn, hc]⟩, Or.inl rfl⟩
          simp [pyIndex, hch0]
      | jarr xs =>
        by_cases hc : xs.any (fun x => match x with | .jstr t => t = "extra" | _ => false)
        · simp [pyIn, hc, pyIndex, except_ok_bind, except_error_bind] at h
        · simp only [pyIn, hc, except_ok_bind, Bool.false_eq_true, if_neg, pure] at h
          cases h
          refine ⟨Or.inr ⟨.jarr xs, ?_, by simp [pyIn, hc]⟩, Or.inl rfl⟩
          simp [pyIndex, hch0]
      | jobj gs =>
        by_cases hg : objMem gs "extra"
        · have hgsome : (objLookup gs "extra").isSome := by
            rw [← objMem_eq_isSome]; exact hg
          obtain ⟨ex, hex⟩ := Option.isSome_iff_exists.mp hgsome
          have hdelmem : objMem (objSet gs "extra_json" (.jstr (dumps ex))) "extra" = true := by
            rw [objMem_objSet]
            simp [hg]
          simp only [pyIn, hg, except_ok_bind, if_pos, pyIndex, hex, pySetItem,
            pyDelItem, hdelmem, if_true, pure] at h
          cases h
          constructor
          · refine Or.inr ⟨.jobj (objDel (objSet gs "extra_json" (.jstr (dumps ex))) "extra"), ?_, ?_⟩
            · simp [pyIndex, objLookup_objSet_self]
            · simp [pyIn, objMem_objDel_self]
          · exact Or.inr ⟨fs, gs, ex, rfl, hmem, hch0, hex, rfl⟩
        · simp only [pyIn, hg, except_ok_bind, Bool.false_eq_true, if_neg, pure] at h
          cases h
          refine ⟨Or.inr ⟨.jobj gs, ?_, by simp [pyIn, hg]⟩, Or.inl rfl⟩
          simp [pyIndex, hch0]
    · simp only [stageChallenge, pyIn, except_ok_bind] at h
      rw [if_neg (by simp [hmem])] at h
      cases h
      exact ⟨Or.inl (by simp [pyIn]; exact Bool.eq_false_iff.mpr hmem), Or.inl rfl⟩

theorem stageEvaluation_ok {z w : JVal} (h : stageEvaluation z = .ok w) :
    evaluationClean w ∧
    (w = z ∨ ∃ fs gs ex, z = .jobj fs ∧
      objMem fs "evaluation" = true ∧
      objLookup fs "evaluation" = some (.jobj gs) ∧
      objLookup gs "extra" = some ex ∧
      (((pyTruthy ex && pyNeEmptyDict ex) = true ∧
        w = .jobj (objSet fs "evaluation"
         (.jobj (objDel (objSet gs "extra_json" (.jstr (dumps ex))) "extra")))) ∨
       ((pyTruthy ex && pyNeEmptyDict ex) = false ∧
        w = .jobj (objSet fs "evaluation" (.jobj (objDel gs "extra")))))) := by
  cases z with
  | jnull => simp [stageEvaluation, pyIn, except_error_bind] at h
  | jbool b => simp [stageEvaluation, pyIn, except_error_bind] at h
  | jnum q => simp [stageEvaluation, pyIn, except_error_bind] at h
  | jstr s =>
    by_cases hc : strContains s "evaluation"
    · simp [stageEvaluation, pyIn, hc, pyIndex, except_ok_bind, except_error_bind] at h
    · simp only [stageEvaluation, pyIn, hc, except_ok_bind, Bool.false_eq_true,
        if_neg, pure] at h
      cases h
      exact ⟨Or.inl (by simp [pyIn, hc]), Or.inl rfl⟩
  | jarr xs =>
    by_cases hc : xs.any (fun x => match x with | .jstr t => t = "evaluation" | _ => false)
    · simp [stageEvaluation, pyIn, hc, pyIndex, except_ok_bind, except_error_bind] at h
    · simp only [stageEvaluation, pyIn, hc, except_ok_bind, Bool.false_eq_true,
        if_neg, pure] at h
      cases h
      exact ⟨Or.inl (by simp [pyIn, hc]), Or.inl rfl⟩
  | jobj fs =>
    by_cases hmem : objMem fs "evaluation"
    · have hsome : (objLookup fs "evaluation").isSome := by
        rw [← objMem_eq_isSome]; exact hmem
      obtain ⟨ev0, hev0⟩ := Option.isSome_iff_exists.mp hsome
      rw [show stageEvaluation (.jobj fs) = (do
            let b2 ← pyIn "extra" ev0
            if b2 then do
              let ex ← pyIndex ev0 "extra"
              if pyTruthy ex && pyNeEmptyDict ex then do
                let ev1 ← pySetItem ev0 "extra_json" (.jstr (dumps ex))
                let ev2 ← pyDelItem ev1 "extra"
                pySetItem (.jobj fs) "evaluation" ev2
              else do
                let ev1 ← pyDelItem ev0 "extra"
                pySetItem (.jobj fs) "evaluation" ev1
            else pure (.jobj fs)) from by
        simp [stageEvaluation, pyIn, hmem, except_ok_bind, pyIndex, hev0]] at h
      cases ev0 with
      | jnull => simp [pyIn, except_error_bind] at h
      | jbool b => simp [pyIn, except_error_bind] at h
      | jnum q => simp [pyIn, except_error_bind] at h
      | jstr s =>
        by_cases hc : strContains s "extra"
        · simp [pyIn, hc, pyIndex, except_ok_bind, except_error_bind] at h
        · simp only [pyIn, hc, except_ok_bind, Bool.false_eq_true, if_neg, pure] at h
          cases h
          refine ⟨Or.inr ⟨.jstr s, ?_, by simp [pyIn, hc]⟩, Or.inl rfl⟩
          simp [pyIndex, hev0]
      | jarr xs =>
        by_cases hc : xs.any (fun x => match x with | .jstr t => t = "extra" | _ => false)
        · simp [pyIn, hc, pyIndex, except_ok_bind, except_error_bind] at h
        · simp only [pyIn, hc, except_ok_bind, Bool.false_eq_true, if_neg, pure] at h
          cases h
          refine ⟨Or.inr ⟨.jarr xs, ?_, by simp [pyIn, hc]⟩, Or.inl rfl⟩
          simp [pyIndex, hev0]
      | jobj gs =>
        by_cases hg : objMem gs "extra"
        · have hgsome : (objLookup gs "extra").isSome := by
            rw [← objMem_eq_isSome]; exact hg
          obtain ⟨ex, hex⟩ := Option.isSome_iff_exists.mp hgsome
          by_cases htr : pyTruthy ex && pyNeEmptyDict ex
          · have hdelmem : objMem (objSet gs "extra_json" (.jstr (dumps ex))) "extra" = true := by
              rw [objMem_objSet]
              simp [hg]
            simp only [pyIn, hg, except_ok_bind, if_pos, pyIndex, hex, htr, pySetItem,
              pyDelItem, hdelmem, if_true, pure] at h
            cases h
            constructor
            · refine Or.inr ⟨.jobj (objDel (objSet gs "extra_json" (.jstr (dumps ex))) "extra"),
                ?_, ?_⟩
              · simp [pyIndex, objLookup_objSet_self]
              · simp [pyIn, objMem_objDel_self]
            · exact Or.inr ⟨fs, gs, ex, rfl, hmem, hev0, hex, Or.inl ⟨htr, rfl⟩⟩
          · simp only [pyIn, hg, except_ok_bind, if_pos, pyIndex, hex] at h
            rw [if_neg htr] at h
            simp only [pyDelItem, hg, if_pos, except_ok_bind, pySetItem] at h
            cases h
            constructor
            · refine Or.inr ⟨.jobj (objDel gs "extra"), ?_, ?_⟩
              · simp [pyIndex, objLookup_objSet_self]
              · simp [pyIn, objMem_objDel_self]
            · exact Or.inr ⟨fs, gs, ex, rfl, hmem, hev0, hex,
                Or.inr ⟨Bool.eq_false_iff.mpr htr, rfl⟩⟩
        · simp only [pyIn, hg, except_ok_bind, Bool.false_eq_true, if_neg, pure] at h
          cases h
          refine ⟨Or.inr ⟨.jobj gs, ?_, by simp [pyIn, hg]⟩, Or.inl rfl⟩
          simp [pyIndex, hev0]
    · simp only [stageEvaluation, pyIn, except_ok_bind] at h
      rw [if_neg (by simp [hmem])] at h
      cases h
      exact ⟨Or.inl (by simp [pyIn]; exact Bool.eq_false_iff.mpr hmem), Or.inl rfl⟩

theorem stageMiner_ok {z w : JVal} (h : stageMiner z = .ok w) :
    minerClean w ∧
    (w = z ∨ ∃ fs gs chu, z = .jobj fs ∧
      objMem fs "miner" = true ∧
      objLookup fs "miner" = some (.jobj gs) ∧
      objLookup gs "chute" = some chu ∧
      w = .jobj (objSet fs "miner"
        (.jobj (objDel (objSet gs "chute_json" (.jstr (dumps chu))) "chute")))) := by
  cases z with
  | jnull => simp [stageMiner, pyIn, except_error_bind] at h
  | jbool b => simp [stageMiner, pyIn, except_error_bind] at h
  | jnum q => simp [stageMiner, pyIn, except_error_bind] at h
  | jstr s =>
    by_cases hc : strContains s "miner"
    · simp [stageMiner, pyIn, hc, pyIndex, except_ok_bind, except_error_bind] at h
    · simp only [stageMiner, pyIn, hc, except_ok_bind, Bool.false_eq_true,
        if_neg, pure] at h
      cases h
      exact ⟨Or.inl (by simp [pyIn, hc]), Or.inl rfl⟩
  | jarr xs =>
    by_cases hc : xs.any (fun x => match x with | .jstr t => t = "miner" | _ => false)
    · simp [stageMiner, pyIn, hc, pyIndex, except_ok_bind, except_error_bind] at h
    · simp only [stageMiner, pyIn, hc, except_ok_bind, Bool.false_eq_true,
        if_neg, pure] at h
      cases h
      exact ⟨Or.inl (by simp [pyIn, hc]), Or.inl rfl⟩
  | jobj fs =>
    by_cases hmem : objMem fs "miner"
    · have hsome : (objLookup fs "miner").isSome := by
        rw [← objMem_eq_isSome]; exact hmem
      obtain ⟨mi0, hmi0⟩ := Option.isSome_iff_exists.mp hsome
      rw [show stageMiner (.jobj fs) = (do
            let b2 ← pyIn "chute" mi0
            if b2 then do
              let chu ← pyIndex mi0 "chute"
              match chu with
              | .jnull => pure (JVal.jobj fs)
              | _ => do
                let mi1 ← pySetItem mi0 "chute_json" (.jstr (dumps chu))
                let mi2 ← pyDelItem mi1 "chute"
                pySetItem (.jobj fs) "miner" mi2
            else pure (.jobj fs)) from by
        simp [stageMiner, pyIn, hmem, except_ok_bind, pyIndex, hmi0]] at h
      cases mi0 with
      | jnull => simp [pyIn, except_error_bind] at h
      | jbool b => simp [pyIn, except_error_bind] at h
      | jnum q => simp [pyIn, except_error_bind] at h
      | jstr s =>
        by_cases hc : strContains s "chute"
        · simp [pyIn, hc, pyIndex, except_ok_bind, except_error_bind] at h
        · simp only [pyIn, hc, except_ok_bind, Bool.false_eq_true, if_neg, pure] at h
          cases h
          refine ⟨Or.inr ⟨.jstr s, ?_, Or.inl (by simp [pyIn, hc])⟩, Or.inl rfl⟩
          simp [pyIndex, hmi0]
      | jarr xs =>
        by_cases hc : xs.any (fun x => match x with | .jstr t => t = "chute" | _ => false)
        · simp [pyIn, hc, pyIndex, except_ok_bind, except_error_bind] at h
        · simp only [pyIn, hc, except_ok_bind, Bool.false_eq_true, if_neg, pure] at h
          cases h
          refine ⟨Or.inr ⟨.jarr xs, ?_, Or.inl (by simp [pyIn, hc])⟩, Or.inl rfl⟩
          simp [pyIndex, hmi0]
      | jobj gs =>
        by_cases hg : objMem gs "chute"
        · have hgsome : (objLookup gs "chute").isSome := by
            rw [← objMem_eq_isSome]; exact hg
          obtain ⟨chu, hchu⟩ := Option.isSome_iff_exists.mp hgsome
          simp only [pyIn, hg, except_ok_bind, if_pos, pyIndex, hchu] at h
          cases chu with
          | jnull =>
            simp only [pure] at h
            cases h
            refine ⟨Or.inr ⟨.jobj gs, ?_, Or.inr ?_⟩, Or.inl rfl⟩
            · simp [pyIndex, hmi0]
            · simp [pyIndex, hchu]
          | jbool b =>
            have hdelmem : objMem (objSet gs "chute_json" (.jstr (dumps (.jbool b)))) "chute" = true := by
              rw [objMem_objSet]; simp [hg]
            simp only [pySetItem, pyDelItem, hdelmem, if_pos, except_ok_bind, pure] at h
            cases h
            constructor
            · refine Or.inr ⟨.jobj (objDel (objSet gs "chute_json" (.jstr (dumps (.jbool b)))) "chute"),
                ?_, Or.inl ?_⟩
              · simp [pyIndex, objLookup_objSet_self]
              · simp [pyIn, objMem_objDel_self]
            · exact Or.inr ⟨fs, gs, .jbool b, rfl, hmem, hmi0, hchu, rfl⟩
          | jnum q =>
            have hdelmem : objMem (objSet gs "chute_json" (.jstr (dumps (.jnum q)))) "chute" = true := by
              rw [objMem_objSet]; simp [hg]
            simp only [pySetItem, pyDelItem, hdelmem, if_pos, except_ok_bind, pure] at h
            cases h
            constructor
            · refine Or.inr ⟨.jobj (objDel (objSet gs "chute_json" (.jstr (dumps (.jnum q)))) "chute"),
                ?_, Or.inl ?_⟩
              · simp [pyIndex, objLookup_objSet_self]
              · simp [pyIn, objMem_objDel_self]
            · exact Or.inr ⟨fs, gs, .jnum q, rfl, hmem, hmi0, hchu, rfl⟩
          | jstr s =>
            have hdelmem : objMem (objSet gs "chute_json" (.jstr (dumps (.jstr s)))) "chute" = true := by
              rw [objMem_objSet]; simp [hg]
            simp only [pySetItem, pyDelItem, hdelmem, if_pos, except_ok_bind, pure] at h
            cases h
            constructor
            · refine Or.inr ⟨.jobj (objDel (objSet gs "chute_json" (.jstr (dumps (.jstr s)))) "chute"),
                ?_, Or.inl ?_⟩
              · simp [pyIndex, objLookup_objSet_self]
              · simp [pyIn, objMem_objDel_self]
            · exact Or.inr ⟨fs, gs, .jstr s, rfl, hmem, hmi0, hchu, rfl⟩
          | jarr xs =>
            have hdelmem : objMem (objSet gs "chute_json" (.jstr (dumps (.jarr xs)))) "chute" = true := by
              rw [objMem_objSet]; simp [hg]
            simp only [pySetItem, pyDelItem, hdelmem, if_pos, except_ok_bind, pure] at h
            cases h
            constructor
            · refine Or.inr ⟨.jobj (objDel (objSet gs "chute_json" (.jstr (dumps (.jarr xs)))) "chute"),
                ?_, Or.inl ?_⟩
              · simp [pyIndex, objLookup_objSet_self]
              · simp [pyIn, objMem_objDel_self]
            · exact Or.inr ⟨fs, gs, .jarr xs, rfl, hmem, hmi0, hchu, rfl⟩
          | jobj hs =>
            have hdelmem : objMem (objSet gs "chute_json" (.jstr (dumps (.jobj hs)))) "chute" = true := by
              rw [objMem_objSet]; simp [hg]
            simp only [pySetItem, pyDelItem, hdelmem, if_pos, except_ok_bind, pure] at h
            cases h
            constructor
            · refine Or.inr ⟨.jobj (objDel (objSet gs "chute_json" (.jstr (dumps (.jobj hs)))) "chute"),
                ?_, Or.inl ?_⟩
              · simp [pyIndex, objLookup_objSet_self]
              · simp [pyIn, objMem_objDel_self]
            · exact Or.inr ⟨fs, gs, .jobj hs, rfl, hmem, hmi0, hchu, rfl⟩
        · simp only [pyIn, hg, except_ok_bind, Bool.false_eq_true, if_neg, pure] at h
          cases h
          refine ⟨Or.inr ⟨.jobj gs, ?_, Or.inl (by simp [pyIn, hg])⟩, Or.inl rfl⟩
          simp [pyIndex, hmi0]
    · simp only [stageMiner, pyIn, except_ok_bind] at h
      rw [if_neg (by simp [hmem])] at h
      cases h
      exact ⟨Or.inl (by simp [pyIn]; exact Bool.eq_false_iff.mpr hmem), Or.inl rfl⟩

/-! ## Idle runs, preservation across stages, and idempotence -/

theorem pyIn_obj (fs : List (String × JVal)) (k : String) :
    pyIn k (.jobj fs) = .ok (objMem fs k) := rfl

theorem pyIndex_obj_some {fs : List (String × JVal)} {k : String} {v : JVal}
    (hl : objLookup fs k = some v) : pyIndex (.jobj fs) k = .ok v := by
  simp [pyIndex, hl]

theorem stageChallenge_of_clean {z : JVal} (h : challengeClean z) :
    stageChallenge z = .ok z := by
  rcases h with h1 | ⟨v, hidx, hin⟩
  · simp [stageChallenge, h1, except_ok_bind, pure, Except.pure]
  · obtain ⟨fs, rfl, hl⟩ := pyIndex_ok_inv hidx
    have hmem : objMem fs "challenge" = true := by
      rw [objMem_eq_isSome, hl]; rfl
    simp [stageChallenge, pyIn_obj, hmem, except_ok_bind, pyIndex_obj_some hl,
      hin, pure, Except.pure]

theorem stageEvaluation_of_clean {z : JVal} (h : evaluationClean z) :
    stageEvaluation z = .ok z := by
  rcases h with h1 | ⟨v, hidx, hin⟩
  · simp [stageEvaluation, h1, except_ok_bind, pure, Except.pure]
  · obtain ⟨fs, rfl, hl⟩ := pyIndex_ok_inv hidx
    have hmem : objMem fs "evaluation" = true := by
      rw [objMem_eq_isSome, hl]; rfl
    simp [stageEvaluation, pyIn_obj, hmem, except_ok_bind, pyIndex_obj_some hl,
      hin, pure, Except.pure]

theorem stageMiner_of_clean {z : JVal} (h : minerClean z) :
    stageMiner z = .ok z := by
  rcases h with h1 | ⟨v, hidx, hin⟩
  · simp [stageMiner, h1, except_ok_bind, pure, Except.pure]
  · obtain ⟨fs, rfl, hl⟩ := pyIndex_ok_inv hidx
    have hmem : objMem fs "miner" = true := by
      rw [objMem_eq_isSome, hl]; rfl
    rcases hin with hin | hnull
    · simp [stageMiner, pyIn_obj, hmem, except_ok_bind, pyIndex_obj_some hl,
        hin, pure, Except.pure]
    · obtain ⟨gs, hv, hlg⟩ := pyIndex_ok_inv hnull
      subst hv
      have hgmem : objMem gs "chute" = true := by
        rw [objMem_eq_isSome, hlg]; rfl
      simp [stageMiner, pyIn_obj, hmem, except_ok_bind, pyIndex_obj_some hl,
        hgmem, pyIndex_obj_some hlg, pure, Except.pure]

/-- Weak shape of a stage result: identity, or an update of the one
top-level key the stage owns (a key the input object already has). -/
def TopShape (kS : String) (z w : JVal) : Prop :=
  w = z ∨ ∃ fs v, z = .jobj fs ∧ objMem fs kS = true ∧
    w = .jobj (objSet fs kS v)

theorem stageChallenge_shape {z w : JVal} (h : stageChallenge z = .ok w) :
    TopShape "challenge" z w := by
  rcases (stageChallenge_ok h).2 with h1 | ⟨fs, gs, ex, hz, hm, _, _, hw⟩
  · exact Or.inl h1
  · exact Or.inr ⟨fs, _, hz, hm, hw⟩

theorem stageEvaluation_shape {z w : JVal} (h : stageEvaluation z = .ok w) :
    TopShape "evaluation" z w := by
  rcases (stageEvaluation_ok h).2 with h1 | ⟨fs, gs, ex, hz, hm, _, _, hw | hw⟩
  · exact Or.inl h1
  · exact Or.inr ⟨fs, _, hz, hm, hw.2⟩
  · exact Or.inr ⟨fs, _, hz, hm, hw.2⟩

theorem stageMiner_shape {z w : JVal} (h : stageMiner z = .ok w) :
    TopShape "miner" z w := by
  rcases (stageMiner_ok h).2 with h1 | ⟨fs, gs, chu, hz, hm, _, _, hw⟩
  · exact Or.inl h1
  · exact Or.inr ⟨fs, _, hz, hm, hw⟩

/-- Transport of a whole-object view across one stage: the other
top-level keys keep their values and the key list is unchanged. -/
theorem topShape_jobj {z w : JVal} {kS : String} {fs : List (String × JVal)}
    (h : TopShape kS z w) (hz : z = .jobj fs) :
    ∃ fs2, w = .jobj fs2 ∧
      (∀ k, ¬ k = kS → objLookup fs2 k = objLookup fs k) ∧
      fs2.map Prod.fst = fs.map Prod.fst := by
  rcases h with rfl | ⟨fs', v, hz', hm, rfl⟩
  · exact ⟨fs, hz, fun _ _ => rfl, rfl⟩
  · rw [hz] at hz'
    cases hz'
    exact ⟨objSet fs kS v, rfl,
      fun k hk => objLookup_objSet_ne fs kS k v hk,
      objSet_keys_of_mem fs kS v hm⟩

/-- A clean-style predicate at top key `top` survives an update of a
different top key. -/
theorem clean_transport {z w : JVal} {kS top : String} (P : JVal → Prop)
    (hsh : TopShape kS z w) (hk : ¬ top = kS)
    (hc : pyIn top z = .ok false ∨ ∃ v, pyIndex z top = .ok v ∧ P v) :
    pyIn top w = .ok false ∨ ∃ v, pyIndex w top = .ok v ∧ P v := by
  rcases hsh with rfl | ⟨fs, x, rfl, hm0, rfl⟩
  · exact hc
  · rcases hc with h1 | ⟨v, hidx, hP⟩
    · left
      have hm : objMem fs top = false := by
        simpa [pyIn] using h1
      simp [pyIn, objMem_objSet, hm, hk]
    · right
      obtain ⟨fs', heq, hl⟩ := pyIndex_ok_inv hidx
      cases heq
      refine ⟨v, ?_, hP⟩
      simp [pyIndex, objLookup_objSet_ne fs kS top x hk, hl]

theorem challengeClean_transport {z w : JVal} {kS : String}
    (hsh : TopShape kS z w) (hk : ¬ "challenge" = kS)
    (hc : challengeClean z) : challengeClean w :=
  clean_transport _ hsh hk hc

theorem evaluationClean_transport {z w : JVal} {kS : String}
    (hsh : TopShape kS z w) (hk : ¬ "evaluation" = kS)
    (hc : evaluationClean z) : evaluationClean w :=
  clean_transport _ hsh hk hc

theorem minerClean_transport {z w : JVal} {kS : String}
    (hsh : TopShape kS z w) (hk : ¬ "miner" = kS)
    (hc : minerClean z) : minerClean w :=
  clean_transport _ hsh hk hc

/-- Splitting a successful `normalize_result` into its three stages. -/
theorem normalize_result_parts {x y : JVal} (h : normalize_result x = .ok y) :
    ∃ a b, stageChallenge x = .ok a ∧ stageEvaluation a = .ok b ∧
      stageMiner b = .ok y := by
  unfold normalize_result at h
  dsimp only at h
  cases hC : stageChallenge x with
  | error e => rw [hC] at h; simp [except_error_bind] at h
  | ok a =>
    rw [hC] at h
    rw [except_ok_bind] at h
    cases hE : stageEvaluation a with
    | error e => rw [hE] at h; simp [except_error_bind] at h
    | ok b =>
      rw [hE] at h
      rw [except_ok_bind] at h
      exact ⟨a, b, rfl, hE, h⟩

/-- An already-canonical object leaves nothing for any stage to do. -/
theorem alreadyCanonical_clean {x : JVal} (h : alreadyCanonical x = true) :
    challengeClean x ∧ evaluationClean x ∧ minerClean x := by
  cases x with
  | jobj fs =>
    simp only [alreadyCanonical, Bool.and_eq_true] at h
    obtain ⟨⟨hc, he⟩, hm⟩ := h
    refine ⟨?_, ?_, ?_⟩
    · cases hl : objLookup fs "challenge" with
      | none =>
        left
        simp [pyIn, objMem_eq_isSome, hl]
      | some v =>
        rw [hl] at hc
        cases v with
        | jobj gs =>
          right
          exact ⟨.jobj gs, by simp [pyIndex, hl], by simpa [pyIn] using hc⟩
        | jnull => simp at hc
        | jbool b => simp at hc
        | jnum q => simp at hc
        | jstr s => simp at hc
        | jarr xs => simp at hc
    · cases hl : objLookup fs "evaluation" with
      | none =>
        left
        simp [pyIn, objMem_eq_isSome, hl]
      | some v =>
        rw [hl] at he
        cases v with
        | jobj gs =>
          right
          exact ⟨.jobj gs, by simp [pyIndex, hl], by simpa [pyIn] using he⟩
        | jnull => simp at he
        | jbool b => simp at he
        | jnum q => simp at he
        | jstr s => simp at he
        | jarr xs => simp at he
    · cases hl : objLookup fs "miner" with
      | none =>
        left
        simp [pyIn, objMem_eq_isSome, hl]
      | some v =>
        rw [hl] at hm
        cases v with
        | jobj gs =>
          right
          exact ⟨.jobj gs, by simp [pyIndex, hl], Or.inl (by simpa [pyIn] using hm)⟩
        | jnull => simp at hm
        | jbool b => simp at hm
        | jnum q => simp at hm
        | jstr s => simp at hm
        | jarr xs => simp at hm
  | jnull => simp [alreadyCanonical] at h
  | jbool b => simp [alreadyCanonical] at h
  | jnum q => simp [alreadyCanonical] at h
  | jstr s => simp [alreadyCanonical] at h
  | jarr xs => simp [alreadyCanonical] at h

/-- A value on which every stage is idle is a fixed point of the
normalizer. -/
theorem normalize_result_of_clean {z : JVal} (h1 : challengeClean z)
    (h2 : evaluationClean z) (h3 : minerClean z) :
    normalize_result z = .ok z := by
  unfold normalize_result
  dsimp only
  rw [stageChallenge_of_clean h1, except_ok_bind,
    stageEvaluation_of_clean h2, except_ok_bind,
    stageMiner_of_clean h3]

/-! ## Concrete records used by witnesses and counterexamples -/

/-- The record of object `b.json` in the spec scenario: a valid candidate
with a `challenge.extra` sub-object. -/
def recB : JVal := .jobj [("version", .jnum 1), ("miner", .jobj []),
  ("challenge", .jobj [("extra", .jobj [("x", .jnum 1)])]),
  ("response", .jobj []), ("evaluation", .jobj [("score", .jnum 1)])]

/-- The canonical form of `recB`: `challenge.extra` replaced by the
serialized string field. -/
def recBnorm : JVal := .jobj [("version", .jnum 1), ("miner", .jobj []),
  ("challenge", .jobj [("extra_json", .jstr (dumps (.jobj [("x", .jnum 1)])))]),
  ("response", .jobj []), ("evaluation", .jobj [("score", .jnum 1)])]

/-- An already-canonical record: required keys, no `challenge.extra`, no
`evaluation.extra`, no `miner.chute`. -/
def recCanon : JVal := .jobj [("version", .jnum 1), ("miner", .jobj []),
  ("challenge", .jobj []), ("response", .jobj []),
  ("evaluation", .jobj [("score", .jnum 1)])]

/-! ## Claims -/

/-- C4: `normalize_result` is idempotent: whenever it succeeds, its
output is a fixed point, so running it again returns the output
unchanged; and on an already-canonical record (no `challenge.extra`, no
`evaluation.extra`, no `miner.chute`) it returns its input unchanged.
Non-mutation of the argument is the structural copy
`json.loads(json.dumps(item))` taken at the top of the function,
rendered in the pure embedding by operating on the value itself. -/
theorem normalize_result_idempotent (x y : JVal)
    (h : normalize_result x = .ok y) :
    normalize_result y = .ok y ∧ (alreadyCanonical x = true → y = x) := by
  obtain ⟨a, b, hC, hE, hM⟩ := normalize_result_parts h
  have cCa := (stageChallenge_ok hC).1
  have cEb := (stageEvaluation_ok hE).1
  have cMy := (stageMiner_ok hM).1
  have shE := stageEvaluation_shape hE
  have shM := stageMiner_shape hM
  have cCb := challengeClean_transport shE (by decide) cCa
  have cCy := challengeClean_transport shM (by decide) cCb
  have cEy := evaluationClean_transport shM (by decide) cEb
  refine ⟨normalize_result_of_clean cCy cEy cMy, ?_⟩
  intro hcan
  obtain ⟨c1, c2, c3⟩ := alreadyCanonical_clean hcan
  have hfix := normalize_result_of_clean c1 c2 c3
  rw [hfix] at h
  cases h
  rfl

/-- Witness for C4: the idempotence theorem applied to the concrete
record of the spec scenario (whose normalization is a genuine rewrite)
and to an already-canonical record (where it is a no-op). -/
theorem normalize_result_idempotent_witness :
    (normalize_result recBnorm = .ok recBnorm ∧
      (alreadyCanonical recB = true → recBnorm = recB)) ∧
    (normalize_result recCanon = .ok recCanon ∧
      (alreadyCanonical recCanon = true → recCanon = recCanon)) :=
  ⟨normalize_result_idempotent recB recBnorm (by rfl),
   normalize_result_idempotent recCanon recCanon (by rfl)⟩

/-! ## Result shapes of `process_file` -/

/-- Every run of the post-parse body returns either items with no error
or no items with an error message. -/
theorem processParsed_shape (j : JVal) (key : String) :
    (∃ l, processParsed j key = (some l, none)) ∨
    (∃ msg, processParsed j key = (none, some msg)) := by
  unfold processParsed
  split
  · exact Or.inr ⟨_, rfl⟩
  · split
    · split
      · exact Or.inl ⟨_, rfl⟩
      · exact Or.inr ⟨_, rfl⟩
    · split
      · exact Or.inl ⟨_, rfl⟩
      · exact Or.inr ⟨_, rfl⟩
      · exact Or.inr ⟨_, rfl⟩

/-- Every run of `process_file` returns either items with no error or no
items with an error message. -/
theorem process_file_shape (f : Fetched) (key : String)
    (parse : String → Except String JVal) :
    (∃ l, process_file f key parse = (some l, none)) ∨
    (∃ msg, process_file f key parse = (none, some msg)) := by
  cases f with
  | fetchErr e => exact Or.inr ⟨_, rfl⟩
  | decodeErr e => exact Or.inr ⟨_, rfl⟩
  | text s =>
    unfold process_file
    dsimp only
    split
    · exact Or.inr ⟨_, rfl⟩
    · split
      · exact Or.inr ⟨_, rfl⟩
      · exact processParsed_shape _ _

/-- C6: a key whose fetched content strips to the empty string or to
`[]` is skipped with the empty-file reason, producing no records; the
result does not depend on the JSON decoder, so no decoding or
validation takes place. -/
theorem process_file_empty_skip (key : String)
    (parse : String → Except String JVal) (s : String)
    (h : pyStrip s = "" ∨ pyStrip s = "[]") :
    process_file (.text s) key parse = (none, some ("Empty file: " ++ key)) := by
  unfold process_file
  rcases h with h | h <;> simp [h]

/-- Witness for C6 at content `" [] "` and `""`, under a decoder that
would fail if it were consulted. -/
theorem process_file_empty_skip_witness :
    process_file (.text " [] ") "a.json" (fun _ => .error "unused") =
      (none, some ("Empty file: " ++ "a.json")) ∧
    process_file (.text "") "a.json" (fun _ => .error "unused") =
      (none, some ("Empty file: " ++ "a.json")) :=
  ⟨process_file_empty_skip "a.json" _ " [] " (Or.inr (by decide)),
   process_file_empty_skip "a.json" _ "" (Or.inl (by decide))⟩

/-- C10: `process_file` never propagates an exception: its translation
is total, every outcome is either items with no error or a skip with a
reason, and each failure mode — fetch error, undecodable payload, JSON
decode failure — yields the corresponding skip reason. -/
theorem process_file_no_exception (f : Fetched) (key : String)
    (parse : String → Except String JVal) :
    ((∃ l, process_file f key parse = (some l, none)) ∨
     (∃ msg, process_file f key parse = (none, some msg))) ∧
    (∀ e, process_file (.fetchErr e) key parse =
      (none, some ("Error processing " ++ key ++ ": " ++ e))) ∧
    (∀ e, process_file (.decodeErr e) key parse =
      (none, some ("Error processing " ++ key ++ ": " ++ e))) ∧
    (∀ s e, ¬ (pyStrip s = "[]" ∨ pyStrip s = "") →
      parse (pyStrip s) = .error e →
      process_file (.text s) key parse =
        (none, some ("JSON decode error in " ++ key ++ ": " ++ e))) := by
  refine ⟨process_file_shape f key parse, fun e => rfl, fun e => rfl, ?_⟩
  intro s e hne hp
  unfold process_file
  dsimp only
  rw [if_neg hne, hp]

/-- Witness for C10: a malformed payload is skipped with the decode
reason, and a fetch failure with the processing reason. -/
theorem process_file_no_exception_witness :
    (∀ e, process_file (Fetched.fetchErr e) "k" (fun _ => .error "bad syntax") =
      (none, some ("Error processing " ++ "k" ++ ": " ++ e))) ∧
    process_file (.text "x") "k" (fun _ => .error "bad syntax") =
      (none, some ("JSON decode error in " ++ "k" ++ ": " ++ "bad syntax")) :=
  ⟨(process_file_no_exception (.fetchErr "boom") "k" (fun _ => .error "bad syntax")).2.1,
   (process_file_no_exception (.fetchErr "boom") "k"
      (fun _ => .error "bad syntax")).2.2.2 "x" "bad syntax" (by decide) rfl⟩

/-- A single-element array whose element has all required keys but score
`0.5`: the payload validates, yet no element survives the score check. -/
def itemHalf : JVal := .jobj [("version", .jnum 1), ("miner", .jobj []),
  ("challenge", .jobj []), ("response", .jobj []),
  ("evaluation", .jobj [("score", .jnum (mkRat 1 2))])]

/-- Counterexample for C3: a key whose payload is a JSON array that
passes validation but whose only element has score `0.5` yields
`(some [], none)`; collecting that result increments the error count
while leaving the error list unchanged — no reason is appended,
contradicting the claim. -/
theorem collect_unreasoned_error_cex :
    process_file (.text "x") "k" (fun _ => .ok (.jarr [itemHalf])) =
      (some [], none) ∧
    (collectResult ⟨7, 5, ["e1"], []⟩ (some [], none)).error_count = 5 + 1 ∧
    (collectResult ⟨7, 5, ["e1"], []⟩ (some [], none)).errors = ["e1"] ∧
    (collectResult ⟨7, 5, ["e1"], []⟩ (some [], none)).processed_count = 7 :=
  ⟨rfl, rfl, rfl, rfl⟩

/-- C3 as amended: collecting the result of any dispatched key
increments exactly one of the two counters; an error-count increment
appends the reason to the error list except in the one case where
`process_file` returned an empty item list with no reason (an array
payload that validated but produced zero canonical records), where the
error count is incremented silently. -/
theorem collectResult_spec (t : Tally) (f : Fetched) (key : String)
    (parse : String → Except String JVal) :
    ((collectResult t (process_file f key parse)).processed_count =
        t.processed_count + 1 ∧
     (collectResult t (process_file f key parse)).error_count = t.error_count ∧
     (collectResult t (process_file f key parse)).errors = t.errors) ∨
    ((collectResult t (process_file f key parse)).error_count =
        t.error_count + 1 ∧
     (collectResult t (process_file f key parse)).processed_count =
        t.processed_count ∧
     ((∃ e, (process_file f key parse).2 = some e ∧
        (collectResult t (process_file f key parse)).errors = t.errors ++ [e]) ∨
      (process_file f key parse = (some [], none) ∧
        (collectResult t (process_file f key parse)).errors = t.errors))) := by
  rcases process_file_shape f key parse with ⟨l, hl⟩ | ⟨msg, hm⟩
  · cases l with
    | nil =>
      right
      rw [hl]
      exact ⟨rfl, rfl, Or.inr ⟨rfl, rfl⟩⟩
    | cons x xs =>
      left
      rw [hl]
      exact ⟨rfl, rfl, rfl⟩
  · right
    rw [hm]
    exact ⟨rfl, rfl, Or.inl ⟨msg, rfl, rfl⟩⟩

/-! ## Boolean scores (C8) -/

/-- A valid record whose score is the JSON boolean `true`. -/
def recBoolTrue : JVal := .jobj [("version", .jnum 1), ("miner", .jobj []),
  ("challenge", .jobj []), ("response", .jobj []),
  ("evaluation", .jobj [("score", .jbool true)])]

/-- A valid record whose score is the JSON boolean `false`. -/
def recBoolFalse : JVal := .jobj [("version", .jnum 1), ("miner", .jobj []),
  ("challenge", .jobj []), ("response", .jobj []),
  ("evaluation", .jobj [("score", .jbool false)])]

/-- `recBoolTrue` as emitted: score coerced to the integer 1. -/
def recBoolTrueOut : JVal := .jobj [("version", .jnum 1), ("miner", .jobj []),
  ("challenge", .jobj []), ("response", .jobj []),
  ("evaluation", .jobj [("score", .jnum 1)])]

/-- `recBoolFalse` as emitted: score coerced to the integer 0. -/
def recBoolFalseOut : JVal := .jobj [("version", .jnum 1), ("miner", .jobj []),
  ("challenge", .jobj []), ("response", .jobj []),
  ("evaluation", .jobj [("score", .jnum 0)])]

/-- An otherwise-complete filter-pass row whose score is `true`. -/
def rowBoolTrue : JVal := .jobj [
  ("miner", .jobj [("uid", .jnum 3), ("model", .jstr "m")]),
  ("challenge", .jobj [("env", .jstr "e"), ("prompt", .jstr "p")]),
  ("response", .jobj [("response", .jstr "r")]),
  ("evaluation", .jobj [("score", .jbool true)])]

/-- The filtered projection of `rowBoolTrue`: score 1. -/
def rowBoolTrueOut : JVal := .jobj [
  ("uid", .jnum 3), ("env", .jstr "e"), ("prompt", .jstr "p"),
  ("response", .jstr "r"), ("model", .jstr "m"), ("score", .jnum 1),
  ("evaluation_extra_json", .jnull)]

/-- C8: JSON booleans pass the score check `isinstance(score, (int,
float)) and score in [0, 1]` (Python `bool` is a subclass of `int` and
`True == 1`, `False == 0`), so a record with score `true` is accepted
and emitted with `evaluation.score` equal to the integer 1, `false`
with 0 — both in `process_file` and in the filter pass. -/
theorem bool_score_accepted :
    (∀ b, scoreValid (.jbool b) = true) ∧
    (∀ b, pyIntOf (.jbool b) = if b then 1 else 0) ∧
    process_file (.text "x") "k" (fun _ => .ok recBoolTrue) =
      (some [recBoolTrueOut], none) ∧
    process_file (.text "x") "k" (fun _ => .ok recBoolFalse) =
      (some [recBoolFalseOut], none) ∧
    filter_line (.ok rowBoolTrue) none none "1" = some rowBoolTrueOut := by
  refine ⟨fun b => by cases b <;> rfl, fun b => by cases b <;> rfl, rfl, rfl, rfl⟩

/-! ## Truthiness of `evaluation.extra` (C9) -/

/-- The guard of the `evaluation.extra` block: the `!= \x7b\x7d` conjunct
adds nothing, because the empty dict is already falsy. -/
theorem truthy_guard (v : JVal) :
    (pyTruthy v && pyNeEmptyDict v) = pyTruthy v := by
  cases v with
  | jobj fs => cases fs <;> simp [pyTruthy, pyNeEmptyDict]
  | jarr xs => cases xs <;> simp [pyTruthy, pyNeEmptyDict]
  | jnull => rfl
  | jbool b => simp [pyTruthy, pyNeEmptyDict]
  | jnum q => simp [pyTruthy, pyNeEmptyDict]
  | jstr t => simp [pyTruthy, pyNeEmptyDict]

/-- A section that still holds an `extra` key is not clean. -/
theorem not_clean_of_extra {fs gs : List (String × JVal)} {top : String}
    (hl : objLookup fs top = some (.jobj gs)) (hx : objMem gs "extra" = true)
    (hc : pyIn top (.jobj fs) = .ok false ∨
      ∃ w, pyIndex (.jobj fs) top = .ok w ∧ pyIn "extra" w = .ok false) :
    False := by
  have hmem : objMem fs top = true := by
    rw [objMem_eq_isSome, hl]; rfl
  rcases hc with hc | ⟨w, hidx, hin⟩
  · rw [pyIn_obj, hmem] at hc
    simp at hc
  · rw [pyIndex_obj_some hl] at hidx
    cases hidx
    rw [pyIn_obj, hx] at hin
    simp at hin

/-- C9: for a record holding an `evaluation.extra` value `v`, the
normalizer deletes `extra` with no replacement when `v` is falsy (0,
false, empty string, empty array, empty object or null) and replaces it
by the serialized `extra_json` string exactly when `v` is truthy; a
`challenge.extra` value `u`, in contrast, is always replaced by
`challenge.extra_json`, whatever `u` is. -/
theorem extra_truthiness (x y : JVal) (fs gs : List (String × JVal))
    (v : JVal) (hx : x = .jobj fs)
    (hev : objLookup fs "evaluation" = some (.jobj gs))
    (hextra : objLookup gs "extra" = some v)
    (hnorm : normalize_result x = .ok y) :
    ∃ fs2, y = .jobj fs2 ∧
      (pyTruthy v = false →
        objLookup fs2 "evaluation" = some (.jobj (objDel gs "extra"))) ∧
      (pyTruthy v = true →
        objLookup fs2 "evaluation" = some
          (.jobj (objDel (objSet gs "extra_json" (.jstr (dumps v))) "extra"))) ∧
      (∀ hs u, objLookup fs "challenge" = some (.jobj hs) →
        objLookup hs "extra" = some u →
        objLookup fs2 "challenge" = some
          (.jobj (objDel (objSet hs "extra_json" (.jstr (dumps u))) "extra"))) := by
  subst hx
  obtain ⟨a, b, hC, hE, hM⟩ := normalize_result_parts hnorm
  obtain ⟨fsa, ha, hlooka, hka⟩ := topShape_jobj (stageChallenge_shape hC) rfl
  subst ha
  obtain ⟨fsb, hb, hlookb, hkb⟩ := topShape_jobj (stageEvaluation_shape hE) rfl
  subst hb
  obtain ⟨fs2, hy, hlook2, hk2⟩ := topShape_jobj (stageMiner_shape hM) rfl
  have hmemx : objMem gs "extra" = true := by
    rw [objMem_eq_isSome, hextra]; rfl
  have heva : objLookup fsa "evaluation" = some (.jobj gs) := by
    rw [hlooka "evaluation" (by decide)]; exact hev
  refine ⟨fs2, hy, ?_, ?_, ?_⟩
  · -- falsy: extra deleted, nothing added
    intro hf
    rcases (stageEvaluation_ok hE).2 with hid |
      ⟨fs', gs', ex', ha', hm', hev', hex', hcase⟩
    · exfalso
      have hcl := (stageEvaluation_ok hE).1
      rw [hid] at hcl
      exact not_clean_of_extra heva hmemx hcl
    · cases ha'
      rw [heva] at hev'
      cases hev'
      rw [hextra] at hex'
      cases hex'
      rw [truthy_guard] at hcase
      rcases hcase with ⟨htr, hb⟩ | ⟨htr, hb⟩
      · rw [hf] at htr
        cases htr
      · cases hb
        rw [hlook2 "evaluation" (by decide)]
        exact objLookup_objSet_self _ _ _
  · -- truthy: extra_json created, extra deleted
    intro ht
    rcases (stageEvaluation_ok hE).2 with hid |
      ⟨fs', gs', ex', ha', hm', hev', hex', hcase⟩
    · exfalso
      have hcl := (stageEvaluation_ok hE).1
      rw [hid] at hcl
      exact not_clean_of_extra heva hmemx hcl
    · cases ha'
      rw [heva] at hev'
      cases hev'
      rw [hextra] at hex'
      cases hex'
      rw [truthy_guard] at hcase
      rcases hcase with ⟨htr, hb⟩ | ⟨htr, hb⟩
      · cases hb
        rw [hlook2 "evaluation" (by decide)]
        exact objLookup_objSet_self _ _ _
      · rw [ht] at htr
        cases htr
  · -- challenge.extra is always flattened
    intro hs u hch hchx
    have hmemc : objMem hs "extra" = true := by
      rw [objMem_eq_isSome, hchx]; rfl
    rcases (stageChallenge_ok hC).2 with hid |
      ⟨fs', gs', ex', hz', hm', hch', hex', hw⟩
    · exfalso
      have hcl := (stageChallenge_ok hC).1
      rw [hid] at hcl
      exact not_clean_of_extra hch hmemc hcl
    · cases hz'
      rw [hch] at hch'
      cases hch'
      rw [hchx] at hex'
      cases hex'
      cases hw
      rw [hlook2 "challenge" (by decide), hlookb "challenge" (by decide)]
      exact objLookup_objSet_self _ _ _

/-- Witness for C9: a falsy `evaluation.extra` (the number 0) is removed
with no replacement, and a record with both a truthy `evaluation.extra`
and a null-valued `challenge.extra` gets both `extra_json` fields. -/
theorem extra_truthiness_witness :
    (∃ fs2, JVal.jobj [("evaluation", .jobj [])] = .jobj fs2 ∧
      (pyTruthy (.jnum 0) = false →
        objLookup fs2 "evaluation" =
          some (.jobj (objDel [("extra", .jnum 0)] "extra"))) ∧
      (pyTruthy (.jnum 0) = true →
        objLookup fs2 "evaluation" = some
          (.jobj (objDel (objSet [("extra", .jnum 0)] "extra_json"
            (.jstr (dumps (.jnum 0)))) "extra"))) ∧
      (∀ hs u, objLookup [("evaluation", JVal.jobj [("extra", .jnum 0)])]
          "challenge" = some (.jobj hs) →
        objLookup hs "extra" = some u →
        objLookup fs2 "challenge" = some
          (.jobj (objDel (objSet hs "extra_json" (.jstr (dumps u))) "extra")))) ∧
    (∃ fs2, JVal.jobj
        [("challenge", .jobj [("extra_json", .jstr (dumps .jnull))]),
         ("evaluation", .jobj [("extra_json",
            .jstr (dumps (.jobj [("x", .jnum 1)])))])] = .jobj fs2 ∧
      (pyTruthy (.jobj [("x", .jnum 1)]) = false →
        objLookup fs2 "evaluation" =
          some (.jobj (objDel [("extra", .jobj [("x", .jnum 1)])] "extra"))) ∧
      (pyTruthy (.jobj [("x", .jnum 1)]) = true →
        objLookup fs2 "evaluation" = some
          (.jobj (objDel (objSet [("extra", .jobj [("x", .jnum 1)])]
            "extra_json" (.jstr (dumps (.jobj [("x", .jnum 1)])))) "extra"))) ∧
      (∀ hs u, objLookup
          [("challenge", JVal.jobj [("extra", .jnull)]),
           ("evaluation", JVal.jobj [("extra", .jobj [("x", .jnum 1)])])]
          "challenge" = some (.jobj hs) →
        objLookup hs "extra" = some u →
        objLookup fs2 "challenge" = some
          (.jobj (objDel (objSet hs "extra_json" (.jstr (dumps u))) "extra")))) :=
  ⟨extra_truthiness (.jobj [("evaluation", .jobj [("extra", .jnum 0)])])
      (.jobj [("evaluation", .jobj [])])
      [("evaluation", .jobj [("extra", .jnum 0)])] [("extra", .jnum 0)]
      (.jnum 0) rfl rfl rfl (by rfl),
   extra_truthiness
      (.jobj [("challenge", .jobj [("extra", .jnull)]),
              ("evaluation", .jobj [("extra", .jobj [("x", .jnum 1)])])])
      (.jobj [("challenge", .jobj [("extra_json", .jstr (dumps .jnull))]),
              ("evaluation", .jobj [("extra_json",
                 .jstr (dumps (.jobj [("x", .jnum 1)])))])])
      [("challenge", .jobj [("extra", .jnull)]),
       ("evaluation", .jobj [("extra", .jobj [("x", .jnum 1)])])]
      [("extra", .jobj [("x", .jnum 1)])]
      (.jobj [("x", .jnum 1)]) rfl rfl rfl (by rfl)⟩

/-! ## The validator and the score domain (C2) -/

/-- Counterexample for C2: `is_valid_result` accepts a single object
whose `evaluation.score` is `0.5`, and likewise an array containing
such an element, even though `0.5` fails the score-domain check — the
validator inspects required keys only; the score check lives elsewhere
(in `process_file`). -/
theorem is_valid_result_ignores_score_cex :
    is_valid_result itemHalf = true ∧
    is_valid_result (.jarr [itemHalf]) = true ∧
    scoreValid (.jnum (mkRat 1 2)) = false :=
  ⟨rfl, rfl, rfl⟩

/-- C2 as amended: `is_valid_result` returns true for any single object
with the five required keys — whatever `evaluation.score` holds — and
for any array starting with such an object; the score-domain contract is
enforced separately in `process_file`, which turns a validated single
object with an invalid score into a skip with the invalid-score reason,
and silently drops a validated array element with an invalid score. -/
theorem validator_checks_required_keys_only (fs : List (String × JVal))
    (key : String) (hreq : requiredKeysB fs = true) :
    is_valid_result (.jobj fs) = true ∧
    (∀ rest, is_valid_result (.jarr (.jobj fs :: rest)) = true) ∧
    (∀ sc, getScore (.jobj fs) = .ok sc → scoreValid sc = false →
      processParsed (.jobj fs) key =
        (none, some ("Invalid score value (" ++ pyStr sc ++ ") in " ++ key))) ∧
    (∀ acc sc, getScore (.jobj fs) = .ok sc → scoreValid sc = false →
      processItem acc (.jobj fs) = .ok acc) := by
  refine ⟨by simp [is_valid_result, hreq], fun rest => by simp [is_valid_result, hreq],
    ?_, ?_⟩
  · intro sc hge hsv
    unfold processParsed
    rw [if_neg (by simp [is_valid_result, hreq])]
    dsimp only
    rw [hge, except_ok_bind, if_neg (by simp [hsv])]
    rfl
  · intro acc sc hge hsv
    unfold processItem
    dsimp only
    rw [if_pos hreq, hge, except_ok_bind, if_neg (by simp [hsv])]
    rfl

/-- Witness for C2 amended, at the record with required keys and score
`0.5` and the key `c.json`. -/
theorem validator_checks_required_keys_only_witness :
    is_valid_result (.jobj [("version", .jnum 1), ("miner", .jobj []),
      ("challenge", .jobj []), ("response", .jobj []),
      ("evaluation", .jobj [("score", .jnum (mkRat 1 2))])]) = true ∧
    processParsed itemHalf "c.json" =
      (none, some ("Invalid score value (" ++ pyStr (.jnum (mkRat 1 2)) ++
        ") in " ++ "c.json")) ∧
    processItem [] itemHalf = .ok [] :=
  ⟨(validator_checks_required_keys_only [("version", .jnum 1),
      ("miner", .jobj []), ("challenge", .jobj []), ("response", .jobj []),
      ("evaluation", .jobj [("score", .jnum (mkRat 1 2))])] "c.json"
      (by rfl)).1,
   (validator_checks_required_keys_only [("version", .jnum 1),
      ("miner", .jobj []), ("challenge", .jobj []), ("response", .jobj []),
      ("evaluation", .jobj [("score", .jnum (mkRat 1 2))])] "c.json"
      (by rfl)).2.2.1 (.jnum (mkRat 1 2)) rfl rfl,
   (validator_checks_required_keys_only [("version", .jnum 1),
      ("miner", .jobj []), ("challenge", .jobj []), ("response", .jobj []),
      ("evaluation", .jobj [("score", .jnum (mkRat 1 2))])] "c.json"
      (by rfl)).2.2.2 [] (.jnum (mkRat 1 2)) rfl rfl⟩

/-! ## Flat-schema lemmas (C1) -/

theorem requiredKeysB_congr {fs fs' : List (String × JVal)}
    (h : fs'.map Prod.fst = fs.map Prod.fst) :
    requiredKeysB fs' = requiredKeysB fs := by
  have hm : (fun k => objMem fs' k) = (fun k => objMem fs k) :=
    funext (fun k => objMem_congr_keys h k)
  unfold requiredKeysB
  rw [hm]

theorem flat_of_not_mem {gs : List (String × JVal)} {allowed : String}
    (hd : nestedOnlyAt (.jobj gs) allowed = true)
    (hm : objMem gs allowed = false) : flatSection (.jobj gs) = true := by
  simp only [nestedOnlyAt, List.all_eq_true] at hd
  simp only [objMem, List.any_eq_false] at hm
  simp only [flatSection, List.all_eq_true]
  intro kv hkv
  rcases Bool.or_eq_true_iff.mp (hd kv hkv) with hn | ha
  · exact hn
  · exact absurd (of_decide_eq_true ha) (by simpa using hm kv hkv)

theorem mem_objSet {gs : List (String × JVal)} {jk : String} {x : JVal}
    {kv : String × JVal} (h : kv ∈ objSet gs jk x) :
    kv = (jk, x) ∨ kv ∈ gs := by
  unfold objSet at h
  split at h
  · rcases List.mem_map.mp h with ⟨kv0, hkv0, hmap⟩
    by_cases hk : kv0.1 = jk
    · rw [if_pos hk] at hmap
      exact Or.inl hmap.symm
    · rw [if_neg hk] at hmap
      cases hmap
      exact Or.inr hkv0
  · rcases List.mem_append.mp h with hg | hone
    · exact Or.inr hg
    · simp only [List.mem_singleton] at hone
      exact Or.inl hone

theorem flat_flatten {gs : List (String × JVal)} {allowed jk : String}
    {str : String} (hd : nestedOnlyAt (.jobj gs) allowed = true) :
    flatSection (.jobj (objDel (objSet gs jk (.jstr str)) allowed)) = true := by
  simp only [nestedOnlyAt, List.all_eq_true] at hd
  simp only [flatSection, List.all_eq_true]
  intro kv hkv
  simp only [objDel, List.mem_filter] at hkv
  obtain ⟨hmemset, hne⟩ := hkv
  rcases mem_objSet hmemset with rfl | hin
  · rfl
  · rcases Bool.or_eq_true_iff.mp (hd kv hin) with hn | ha
    · exact hn
    · exact absurd (of_decide_eq_true ha)
        (by simpa using hne)

theorem flat_delonly {gs : List (String × JVal)} {allowed : String}
    (hd : nestedOnlyAt (.jobj gs) allowed = true) :
    flatSection (.jobj (objDel gs allowed)) = true := by
  simp only [nestedOnlyAt, List.all_eq_true] at hd
  simp only [flatSection, List.all_eq_true]
  intro kv hkv
  simp only [objDel, List.mem_filter] at hkv
  obtain ⟨hin, hne⟩ := hkv
  rcases Bool.or_eq_true_iff.mp (hd kv hin) with hn | ha
  · exact hn
  · exact absurd (of_decide_eq_true ha) (by simpa using hne)

theorem lookup_unique_of_nodup {gs : List (String × JVal)} {k : String}
    {v : JVal} (hnd : (gs.map Prod.fst).Nodup)
    (hl : objLookup gs k = some v) :
    ∀ kv ∈ gs, kv.1 = k → kv.2 = v := by
  induction gs with
  | nil => intro kv hkv; simp at hkv
  | cons kv0 gs ih =>
    rw [List.map_cons, List.nodup_cons] at hnd
    obtain ⟨hnotin, hndtail⟩ := hnd
    rw [objLookup_cons] at hl
    intro kv hkv hk
    rcases List.mem_cons.mp hkv with rfl | htail
    · rw [if_pos hk] at hl
      simpa using hl
    · by_cases hk0 : kv0.1 = k
      · exfalso
        apply hnotin
        rw [hk0, ← hk]
        exact List.mem_map.mpr ⟨kv, htail, rfl⟩
      · rw [if_neg hk0] at hl
        exact ih hndtail hl kv htail hk

theorem flat_null_at {gs : List (String × JVal)} {allowed : String}
    (hd : nestedOnlyAt (.jobj gs) allowed = true)
    (hnd : (gs.map Prod.fst).Nodup)
    (hl : objLookup gs allowed = some .jnull) :
    flatSection (.jobj gs) = true := by
  simp only [nestedOnlyAt, List.all_eq_true] at hd
  simp only [flatSection, List.all_eq_true]
  intro kv hkv
  rcases Bool.or_eq_true_iff.mp (hd kv hkv) with hn | ha
  · exact hn
  · have hv := lookup_unique_of_nodup hnd hl kv hkv (of_decide_eq_true ha)
    rw [hv]
    rfl

/-- Key-duplicate freedom of one section of a record, automatic for any
dict decoded from JSON. -/
def sectionNodupKeys (fs : List (String × JVal)) (sk : String) : Bool :=
  match objLookup fs sk with
  | some (.jobj gs) => decide ((gs.map Prod.fst).Nodup)
  | _ => true

theorem objLookup_none_of_pyIn_false {fs : List (String × JVal)} {k : String}
    (h : pyIn k (.jobj fs) = .ok false) : objLookup fs k = none := by
  rw [pyIn_obj] at h
  have hm : objMem fs k = false := by simpa using h
  rw [objMem_eq_isSome] at hm
  exact Option.not_isSome_iff_eq_none.mp (by simp [hm])

theorem flat_of_clean_in {v : JVal} {allowed : String}
    (hd : nestedOnlyAt v allowed = true) (hin : pyIn allowed v = .ok false) :
    flatSection v = true := by
  cases v with
  | jobj gs =>
    have hm : objMem gs allowed = false := by
      rw [pyIn_obj] at hin
      simpa using hin
    exact flat_of_not_mem hd hm
  | jnull => rfl
  | jbool b => rfl
  | jnum q => rfl
  | jstr t => rfl
  | jarr xs => rfl

theorem flatMatch_of_clean {fsIn : List (String × JVal)} {sk allowed : String}
    (hd : (match objLookup fsIn sk with
           | some w => nestedOnlyAt w allowed
           | none => true) = true)
    (hclean : pyIn sk (.jobj fsIn) = .ok false ∨
      ∃ v, pyIndex (.jobj fsIn) sk = .ok v ∧ pyIn allowed v = .ok false) :
    (match objLookup fsIn sk with
     | some w => flatSection w
     | none => true) = true := by
  rcases hclean with hfalse | ⟨v, hidx, hin⟩
  · rw [objLookup_none_of_pyIn_false hfalse]
  · obtain ⟨fs', heq, hl⟩ := pyIndex_ok_inv hidx
    cases heq
    rw [hl] at hd ⊢
    exact flat_of_clean_in hd hin

/-- C1 as amended: for a valid candidate record that is an object with
the required keys, and whose `challenge`, `evaluation` and `miner`
sections keep their object/array values only at the designated keys
(`challenge.extra`, `evaluation.extra`, `miner.chute`; with
duplicate-free keys in the miner section, as every decoded dict is),
the normalized output satisfies the required-field contract and the
flat-schema invariant. The counterexample shows the restriction to the
designated keys is necessary: the code flattens only those three
fields. -/
theorem flat_schema_amended (item out : JVal) (fs : List (String × JVal))
    (hobj : item = .jobj fs) (hreq : requiredKeysB fs = true)
    (hdes : sectionsDesignated fs = true)
    (hnd : sectionNodupKeys fs "miner" = true)
    (hnorm : normalize_result item = .ok out) :
    requiredRecordB out = true ∧ flatRecord out = true := by
  subst hobj
  simp only [sectionsDesignated, Bool.and_eq_true] at hdes
  obtain ⟨⟨hdc, hde⟩, hdm⟩ := hdes
  obtain ⟨a, b, hC, hE, hM⟩ := normalize_result_parts hnorm
  obtain ⟨fsa, ha, hlooka, hka⟩ := topShape_jobj (stageChallenge_shape hC) rfl
  subst ha
  obtain ⟨fsb, hb, hlookb, hkb⟩ := topShape_jobj (stageEvaluation_shape hE) rfl
  subst hb
  obtain ⟨fs2, hy, hlook2, hk2⟩ := topShape_jobj (stageMiner_shape hM) rfl
  subst hy
  constructor
  · show requiredKeysB fs2 = true
    rw [requiredKeysB_congr (hk2.trans (hkb.trans hka))]
    exact hreq
  · have hchflat : (match objLookup fs2 "challenge" with
        | some w => flatSection w
        | none => true) = true := by
      have hpres : objLookup fs2 "challenge" = objLookup fsa "challenge" :=
        (hlook2 _ (by decide)).trans (hlookb _ (by decide))
      rcases (stageChallenge_ok hC).2 with hid |
        ⟨fs', gs', ex', hz', hm', hch', hex', hw⟩
      · have hcl := (stageChallenge_ok hC).1
        rw [hid] at hcl
        cases hid
        rw [hpres]
        exact flatMatch_of_clean hdc hcl
      · cases hz'
        cases hw
        rw [hpres, objLookup_objSet_self]
        rw [hch'] at hdc
        exact flat_flatten hdc
    have hevflat : (match objLookup fs2 "evaluation" with
        | some w => flatSection w
        | none => true) = true := by
      have hpres2 : objLookup fs2 "evaluation" = objLookup fsb "evaluation" :=
        hlook2 _ (by decide)
      have hpresa : objLookup fsa "evaluation" = objLookup fs "evaluation" :=
        hlooka _ (by decide)
      have hdea : (match objLookup fsa "evaluation" with
          | some w => nestedOnlyAt w "extra"
          | none => true) = true := by
        rw [hpresa]; exact hde
      rcases (stageEvaluation_ok hE).2 with hid |
        ⟨fs', gs', ex', ha', hm', hev', hex', hcase⟩
      · have hcl := (stageEvaluation_ok hE).1
        rw [hid] at hcl
        cases hid
        rw [hpres2]
        exact flatMatch_of_clean hdea hcl
      · cases ha'
        rw [hev'] at hdea
        rcases hcase with ⟨htr, hb2⟩ | ⟨htr, hb2⟩ <;> cases hb2
        · rw [hpres2, objLookup_objSet_self]
          exact flat_flatten hdea
        · rw [hpres2, objLookup_objSet_self]
          exact flat_delonly hdea
    have hmiflat : (match objLookup fs2 "miner" with
        | some w => flatSection w
        | none => true) = true := by
      have hpresb : objLookup fsb "miner" = objLookup fs "miner" :=
        (hlookb _ (by decide)).trans (hlooka _ (by decide))
      have hdmb : (match objLookup fsb "miner" with
          | some w => nestedOnlyAt w "chute"
          | none => true) = true := by
        rw [hpresb]; exact hdm
      rcases (stageMiner_ok hM).2 with hid |
        ⟨fs', gs', chu', hz', hm', hmi', hchu', hw⟩
      · have hcl := (stageMiner_ok hM).1
        rw [hid] at hcl
        cases hid
        rcases hcl with hfalse | ⟨v, hidx, hin | hnull⟩
        · rw [objLookup_none_of_pyIn_false hfalse]
        · obtain ⟨fs', heq, hl⟩ := pyIndex_ok_inv hidx
          cases heq
          rw [hl] at hdmb ⊢
          exact flat_of_clean_in hdmb hin
        · obtain ⟨fs', heq, hl⟩ := pyIndex_ok_inv hidx
          cases heq
          obtain ⟨gs, hveq, hlg⟩ := pyIndex_ok_inv hnull
          subst hveq
          rw [hl] at hdmb ⊢
          have hndg : (gs.map Prod.fst).Nodup := by
            unfold sectionNodupKeys at hnd
            rw [← hpresb, hl] at hnd
            exact of_decide_eq_true hnd
          exact flat_null_at hdmb hndg hlg
      · cases hz'
        cases hw
        rw [objLookup_objSet_self]
        rw [hmi'] at hdmb
        exact flat_flatten hdmb
    simp only [flatRecord]
    rw [hchflat, hevflat, hmiflat]
    rfl

/-- A valid candidate whose `challenge` holds a nested object at a key
the normalizer does not flatten. -/
def recFoo : JVal := .jobj [("version", .jnum 1), ("miner", .jobj []),
  ("challenge", .jobj [("foo", .jobj [("a", .jnum 1)])]),
  ("response", .jobj []), ("evaluation", .jobj [("score", .jnum 1)])]

/-- Counterexample for C1: a validated record whose `challenge` holds a
nested object under the key `foo` is emitted unchanged by the pipeline —
the nested object survives, so the output violates the flat-schema
invariant even though it has all required keys and a valid score. -/
theorem flat_schema_cex :
    process_file (.text "x") "k" (fun _ => .ok recFoo) =
      (some [recFoo], none) ∧
    requiredRecordB recFoo = true ∧
    scoreValid (.jnum 1) = true ∧
    flatRecord recFoo = false :=
  ⟨rfl, rfl, rfl, rfl⟩

/-- Witness for the amended C1 at the spec-scenario record `recB`. -/
theorem flat_schema_amended_witness :
    requiredRecordB recBnorm = true ∧ flatRecord recBnorm = true :=
  flat_schema_amended recB recBnorm
    [("version", .jnum 1), ("miner", .jobj []),
     ("challenge", .jobj [("extra", .jobj [("x", .jnum 1)])]),
     ("response", .jobj []), ("evaluation", .jobj [("score", .jnum 1)])]
    rfl (by rfl) (by rfl) (by decide) (by rfl)

/-! ## The filter pass retains exactly the spec-described lines (C5) -/

theorem getD_present_eq (cs : List (String × JVal)) (field : String) :
    notNone ((objLookup cs field).getD .jnull) =
      (match objLookup cs field with
       | some v => notNone v
       | none => false) := by
  cases objLookup cs field <;> rfl

/-- Section of a filter-pass row as the code resolves it: the value at
`k`, defaulting to the empty dict, when that value is a dict at all. -/
def secObj (fs : List (String × JVal)) (k : String) :
    Option (List (String × JVal)) :=
  match (objLookup fs k).getD (.jobj []) with
  | .jobj gs => some gs
  | _ => none

/-- The retention condition common to the code and the spec, over the
four resolved sections. -/
def filterCoreB (cs rs ms es : List (String × JVal)) (fu : Option Int)
    (fm : Option String) (fsc : String) : Bool :=
  scoreValid ((objLookup es "score").getD .jnull) &&
  (notNone ((objLookup cs "env").getD .jnull) &&
   notNone ((objLookup cs "prompt").getD .jnull) &&
   notNone ((objLookup rs "response").getD .jnull) &&
   notNone ((objLookup ms "model").getD .jnull) &&
   (decide (fsc = "both") ||
    (decide (fsc = "0") && decide (pyIntOf ((objLookup es "score").getD .jnull) = 0)) ||
    (decide (fsc = "1") && decide (pyIntOf ((objLookup es "score").getD .jnull) = 1))) &&
   (match fu with
    | none => true
    | some u => pyEqInt ((objLookup ms "uid").getD .jnull) u) &&
   (match fm with
    | none => true
    | some m => pyEqStr ((objLookup ms "model").getD .jnull) m))

theorem filter_line_isSome_core (fs : List (String × JVal)) (fu : Option Int)
    (fm : Option String) (fsc : String) :
    (filter_line (.ok (.jobj fs)) fu fm fsc).isSome =
      (match secObj fs "challenge", secObj fs "response",
         secObj fs "miner", secObj fs "evaluation" with
       | some cs, some rs, some ms, some es => filterCoreB cs rs ms es fu fm fsc
       | _, _, _, _ => false) := by
  simp only [filter_line, pyGetAttr_obj, except_ok_bind]
  cases hch : (objLookup fs "challenge").getD (.jobj []) with
  | jobj cs =>
    simp only [secObj, hch, pyGetAttr_obj, except_ok_bind]
    cases hrs : (objLookup fs "response").getD (.jobj []) with
    | jobj rs =>
      simp only [hrs, pyGetAttr_obj, except_ok_bind]
      cases hms : (objLookup fs "miner").getD (.jobj []) with
      | jobj ms =>
        simp only [hms, pyGetAttr_obj, except_ok_bind]
        cases hes : (objLookup fs "evaluation").getD (.jobj []) with
        | jobj es =>
          simp only [hes, pyGetAttr_obj, except_ok_bind]
          by_cases h1 : scoreValid ((objLookup es "score").getD .jnull)
          · rw [if_pos h1]
            by_cases h2 : (notNone ((objLookup cs "env").getD .jnull) &&
              notNone ((objLookup cs "prompt").getD .jnull) &&
              notNone ((objLookup rs "response").getD .jnull) &&
              notNone ((objLookup ms "model").getD .jnull) &&
              (decide (fsc = "both") ||
               (decide (fsc = "0") &&
                decide (pyIntOf ((objLookup es "score").getD .jnull) = 0)) ||
               (decide (fsc = "1") &&
                decide (pyIntOf ((objLookup es "score").getD .jnull) = 1))) &&
              (match fu with
               | none => true
               | some u => pyEqInt ((objLookup ms "uid").getD .jnull) u) &&
              (match fm with
               | none => true
               | some m => pyEqStr ((objLookup ms "model").getD .jnull) m)) = true
            · rw [if_pos h2]
              unfold filterCoreB
              rw [h1, h2]
              simp [pure, Except.pure]
            · rw [if_neg h2]
              unfold filterCoreB
              rw [h1, Bool.eq_false_iff.mpr h2]
              simp [pure, Except.pure]
          · rw [if_neg h1]
            unfold filterCoreB
            rw [Bool.eq_false_iff.mpr h1]
            simp [pure, Except.pure]
        | jnull => simp [hes, pyGetAttr, except_error_bind, secObj]
        | jbool b => simp [hes, pyGetAttr, except_error_bind, secObj]
        | jnum q => simp [hes, pyGetAttr, except_error_bind, secObj]
        | jstr t => simp [hes, pyGetAttr, except_error_bind, secObj]
        | jarr xs => simp [hes, pyGetAttr, except_error_bind, secObj]
      | jnull => simp [hms, pyGetAttr, except_error_bind, secObj]
      | jbool b => simp [hms, pyGetAttr, except_error_bind, secObj]
      | jnum q => simp [hms, pyGetAttr, except_error_bind, secObj]
      | jstr t => simp [hms, pyGetAttr, except_error_bind, secObj]
      | jarr xs => simp [hms, pyGetAttr, except_error_bind, secObj]
    | jnull => simp [hrs, pyGetAttr, except_error_bind, secObj]
    | jbool b => simp [hrs, pyGetAttr, except_error_bind, secObj]
    | jnum q => simp [hrs, pyGetAttr, except_error_bind, secObj]
    | jstr t => simp [hrs, pyGetAttr, except_error_bind, secObj]
    | jarr xs => simp [hrs, pyGetAttr, except_error_bind, secObj]
  | jnull => simp [hch, pyGetAttr, except_error_bind, secObj]
  | jbool b => simp [hch, pyGetAttr, except_error_bind, secObj]
  | jnum q => simp [hch, pyGetAttr, except_error_bind, secObj]
  | jstr t => simp [hch, pyGetAttr, except_error_bind, secObj]
  | jarr xs => simp [hch, pyGetAttr, except_error_bind, secObj]

theorem specField_secObj (fs : List (String × JVal)) (sect field : String) :
    specField (.jobj fs) sect field =
      (match secObj fs sect with
       | some gs => objLookup gs field
       | none => none) := by
  unfold specField secObj
  cases hl : objLookup fs sect with
  | none => simp [hl, objLookup_nil]
  | some v => cases v <;> simp [hl]

theorem getD_pyEqInt_eq (ms : List (String × JVal)) (field : String) (u : Int) :
    pyEqInt ((objLookup ms field).getD .jnull) u =
      (match objLookup ms field with
       | some v => pyEqInt v u
       | none => false) := by
  cases objLookup ms field <;> rfl

theorem getD_pyEqStr_eq (ms : List (String × JVal)) (field : String) (m : String) :
    pyEqStr ((objLookup ms field).getD .jnull) m =
      (match objLookup ms field with
       | some v => pyEqStr v m
       | none => false) := by
  cases objLookup ms field <;> rfl

theorem retainSpec_core (fs : List (String × JVal)) (fu : Option Int)
    (fm : Option String) (fsc : String) :
    retainSpec (.ok (.jobj fs)) fu fm fsc =
      (match secObj fs "challenge", secObj fs "response",
         secObj fs "miner", secObj fs "evaluation" with
       | some cs, some rs, some ms, some es => filterCoreB cs rs ms es fu fm fsc
       | _, _, _, _ => false) := by
  cases hes : secObj fs "evaluation" with
  | none =>
    cases hch : secObj fs "challenge" <;> cases hrs : secObj fs "response" <;>
      cases hms : secObj fs "miner" <;>
      simp [retainSpec, specPresent, specField_secObj, hch, hrs, hms, hes,
        filterCoreB]
  | some es =>
    cases hsc : objLookup es "score" with
    | none =>
      cases hch : secObj fs "challenge" <;> cases hrs : secObj fs "response" <;>
        cases hms : secObj fs "miner" <;>
        simp [retainSpec, specPresent, specField_secObj, hch, hrs, hms, hes,
          hsc, filterCoreB, scoreValid, isNumberLike]
    | some sc =>
      cases hch : secObj fs "challenge" <;> cases hrs : secObj fs "response" <;>
        cases hms : secObj fs "miner" <;>
        simp [retainSpec, specPresent, specField_secObj, hch, hrs, hms, hes,
          hsc, filterCoreB, getD_present_eq, getD_pyEqInt_eq, getD_pyEqStr_eq,
          Bool.and_assoc]

theorem filter_line_some_keys (parsed : Except String JVal) (fu : Option Int)
    (fm : Option String) (fsc : String) (r : JVal)
    (hr : filter_line parsed fu fm fsc = some r) :
    r.keys = ["uid", "env", "prompt", "response", "model", "score",
      "evaluation_extra_json"] := by
  unfold filter_line at hr
  cases parsed with
  | error e => simp [except_error_bind] at hr
  | ok row =>
    rw [except_ok_bind] at hr
    cases h1 : pyGetAttr row "evaluation" (.jobj []) with
    | error e => rw [h1, except_error_bind] at hr; simp at hr
    | ok evaluation =>
      rw [h1, except_ok_bind] at hr
      cases h2 : pyGetAttr row "challenge" (.jobj []) with
      | error e => rw [h2, except_error_bind] at hr; simp at hr
      | ok challenge =>
        rw [h2, except_ok_bind] at hr
        cases h3 : pyGetAttr row "response" (.jobj []) with
        | error e => rw [h3, except_error_bind] at hr; simp at hr
        | ok response =>
          rw [h3, except_ok_bind] at hr
          cases h4 : pyGetAttr challenge "env" .jnull with
          | error e => rw [h4, except_error_bind] at hr; simp at hr
          | ok env =>
            rw [h4, except_ok_bind] at hr
            cases h5 : pyGetAttr challenge "prompt" .jnull with
            | error e => rw [h5, except_error_bind] at hr; simp at hr
            | ok prompt =>
              rw [h5, except_ok_bind] at hr
              cases h6 : pyGetAttr response "response" .jnull with
              | error e => rw [h6, except_error_bind] at hr; simp at hr
              | ok resp =>
                rw [h6, except_ok_bind] at hr
                cases h7 : pyGetAttr row "miner" (.jobj []) with
                | error e => rw [h7, except_error_bind] at hr; simp at hr
                | ok miner =>
                  rw [h7, except_ok_bind] at hr
                  cases h8 : pyGetAttr miner "model" .jnull with
                  | error e => rw [h8, except_error_bind] at hr; simp at hr
                  | ok model =>
                    rw [h8, except_ok_bind] at hr
                    cases h9 : pyGetAttr miner "uid" .jnull with
                    | error e => rw [h9, except_error_bind] at hr; simp at hr
                    | ok uid =>
                      rw [h9, except_ok_bind] at hr
                      cases h10 : pyGetAttr evaluation "score" .jnull with
                      | error e => rw [h10, except_error_bind] at hr; simp at hr
                      | ok score =>
                        rw [h10, except_ok_bind] at hr
                        cases h11 : pyGetAttr evaluation "extra_json" .jnull with
                        | error e => rw [h11, except_error_bind] at hr; simp at hr
                        | ok evaluation_extra_json =>
                          rw [h11, except_ok_bind] at hr
                          simp only [apply_ite (fun x : Except String (Option JVal) =>
                            match x with
                            | Except.ok r2 => r2
                            | Except.error e2 => none), pure, Except.pure] at hr
                          split at hr
                          · split at hr
                            · cases hr
                              rfl
                            · simp at hr
                          · simp at hr
/-- One of the three scenario rows: a complete canonical row with the
given uid and score. -/
def mkRow (uid score : ℚ) : JVal := .jobj [
  ("version", .jnum 1),
  ("miner", .jobj [("uid", .jnum uid), ("model", .jstr "m")]),
  ("challenge", .jobj [("env", .jstr "e"), ("prompt", .jstr "p")]),
  ("response", .jobj [("response", .jstr "r")]),
  ("evaluation", .jobj [("score", .jnum score)])]

/-- The filtered projection of a scenario row with score 1. -/
def rowOut (uid : ℚ) : JVal := .jobj [
  ("uid", .jnum uid), ("env", .jstr "e"), ("prompt", .jstr "p"),
  ("response", .jstr "r"), ("model", .jstr "m"), ("score", .jnum 1),
  ("evaluation_extra_json", .jnull)]

/-- C5: the filter pass retains a line exactly when it decodes to JSON,
its `evaluation.score` coerces to 0 or 1, `env`, `prompt`, `response`
and `model` are present and non-null, and the score/uid/model
predicates match (the spec-side condition `retainSpec`); every emitted
record carries exactly the seven projected fields; and on rows with
uids 1,1,2 and scores 1,0,1, filtering for score 1 yields exactly the
two records with score 1. -/
theorem filter_data_spec (parsed : Except String JVal) (fu : Option Int)
    (fm : Option String) (fsc : String) :
    ((filter_line parsed fu fm fsc).isSome = retainSpec parsed fu fm fsc) ∧
    (∀ r, filter_line parsed fu fm fsc = some r →
      r.keys = ["uid", "env", "prompt", "response", "model", "score",
        "evaluation_extra_json"]) ∧
    filter_data [.ok (mkRow 1 1), .ok (mkRow 1 0), .ok (mkRow 2 1)]
      none none "1" = [rowOut 1, rowOut 2] := by
  refine ⟨?_, fun r hr => filter_line_some_keys parsed fu fm fsc r hr, by rfl⟩
  cases parsed with
  | error e => rfl
  | ok row =>
    cases row with
    | jobj fs =>
      exact (filter_line_isSome_core fs fu fm fsc).trans
        (retainSpec_core fs fu fm fsc).symm
    | jnull => rfl
    | jbool b => rfl
    | jnum q => rfl
    | jstr t => rfl
    | jarr xs => rfl

/-- Witness for C5 at the first scenario row. -/
theorem filter_data_spec_witness :
    ((filter_line (.ok (mkRow 1 1)) none none "1").isSome =
      retainSpec (.ok (mkRow 1 1)) none none "1") ∧
    (rowOut 1).keys = ["uid", "env", "prompt", "response", "model", "score",
      "evaluation_extra_json"] :=
  ⟨(filter_data_spec (.ok (mkRow 1 1)) none none "1").1,
   (filter_data_spec (.ok (mkRow 1 1)) none none "1").2.1 (rowOut 1) (by rfl)⟩

/-! ## Mutual exclusion and atomicity of the Batched Sink (C7) -/

/-- Invariant of the flush interleaving semantics: the acquisition order
is duplicate-free and lists exactly the started tasks; the lock holder
is mid-write; a writing task owns the lock and the file is the complete
batches of earlier holders followed by its own partial batch; with the
lock free the file is exactly the complete batches in acquisition
order. -/
structure SinkInv (n : Nat) (batches : Fin n → List String)
    (c : SinkCfg n) : Prop where
  nodup : c.order.Nodup
  mem_iff : ∀ i, i ∈ c.order ↔ ¬ c.stat i = .idle
  lockSome : ∀ i, c.lock = some i → ∃ k, c.stat i = .writing k
  writing : ∀ i k, c.stat i = .writing k → c.lock = some i ∧
    k ≤ (batches i).length ∧
    ∃ o, c.order = o ++ [i] ∧
      c.file = o.flatMap batches ++ (batches i).take k ∧
      ∀ j ∈ o, c.stat j = .done
  unlocked : c.lock = none →
    c.file = c.order.flatMap batches ∧ ∀ j ∈ c.order, c.stat j = .done

theorem sinkInv_init (n : Nat) (batches : Fin n → List String) :
    SinkInv n batches (sinkInit n) := by
  refine ⟨List.nodup_nil, ?_, ?_, ?_, ?_⟩
  · intro i
    simp [sinkInit]
  · intro i h
    simp [sinkInit] at h
  · intro i k h
    simp [sinkInit] at h
  · intro _
    simp [sinkInit]

theorem sinkInv_step {n : Nat} {batches : Fin n → List String}
    {c c2 : SinkCfg n} (hstep : SinkStep n batches c c2)
    (hinv : SinkInv n batches c) : SinkInv n batches c2 := by
  cases hstep with
  | acquire i c hi hl =>
    obtain ⟨hfile, hdone⟩ := hinv.unlocked hl
    have hnotin : i ∉ c.order := fun hmem => (hinv.mem_iff i).mp hmem hi
    refine ⟨?_, ?_, ?_, ?_, ?_⟩ <;> dsimp only
    · rw [List.nodup_append]
      refine ⟨hinv.nodup, List.nodup_singleton i, ?_⟩
      intro a ha hai
      rw [List.mem_singleton] at hai
      subst hai
      exact hnotin ha
    · intro j
      by_cases hji : j = i
      · subst hji
        simp [Function.update_same]
      · simp only [List.mem_append, List.mem_singleton, hji, or_false,
          Function.update_noteq hji]
        exact hinv.mem_iff j
    · intro j hj
      simp only [Option.some.injEq] at hj
      subst hj
      exact ⟨0, by simp [Function.update_same]⟩
    · intro j k hj
      by_cases hji : j = i
      · subst hji
        rw [Function.update_same] at hj
        cases hj
        refine ⟨rfl, Nat.zero_le _, c.order, rfl, by simp [hfile], ?_⟩
        intro j2 hj2
        have hne : ¬ j2 = j := fun hh => hnotin (hh ▸ hj2)
        rw [Function.update_noteq hne]
        exact hdone j2 hj2
      · rw [Function.update_noteq hji] at hj
        have h2 := (hinv.writing j k hj).1
        rw [hl] at h2
        cases h2
    · intro hnone
      cases hnone
  | write i k c hi hl hk =>
    obtain ⟨-, hkle, o, horder, hfile, hdone⟩ := hinv.writing i k hi
    have hio : i ∉ o := by
      have hnd := hinv.nodup
      rw [horder, List.nodup_append] at hnd
      intro hin
      exact hnd.2.2 hin (List.mem_singleton.mpr rfl)
    refine ⟨hinv.nodup, ?_, ?_, ?_, ?_⟩ <;> dsimp only
    · intro j
      by_cases hji : j = i
      · subst hji
        simp only [Function.update_same]
        constructor
        · intro _ h
          cases h
        · intro _
          rw [horder]
          simp
      · rw [Function.update_noteq hji]
        exact hinv.mem_iff j
    · intro j hj
      simp only [Option.some.injEq] at hj
      subst hj
      exact ⟨k + 1, by simp [Function.update_same]⟩
    · intro j k2 hj
      by_cases hji : j = i
      · subst hji
        rw [Function.update_same] at hj
        cases hj
        refine ⟨rfl, hk, o, horder, ?_, ?_⟩
        · rw [hfile, List.append_assoc]
          congr 1
          rw [List.take_succ]
          congr 1
          simp [List.getElem?_eq_getElem hk]
        · intro j2 hj2
          have hne : ¬ j2 = j := fun hh => hio (hh ▸ hj2)
          rw [Function.update_noteq hne]
          exact hdone j2 hj2
      · rw [Function.update_noteq hji] at hj
        have h2 := (hinv.writing j k2 hj).1
        rw [hl] at h2
        simp only [Option.some.injEq] at h2
        exact absurd h2 (fun hh => hji hh.symm)
    · intro hnone
      cases hnone
  | release i c hi hl =>
    obtain ⟨-, -, o, horder, hfile, hdone⟩ := hinv.writing i _ hi
    have hio : i ∉ o := by
      have hnd := hinv.nodup
      rw [horder, List.nodup_append] at hnd
      intro hin
      exact hnd.2.2 hin (List.mem_singleton.mpr rfl)
    have hfile2 : c.file = c.order.flatMap batches := by
      rw [hfile, horder, List.flatMap_append, List.take_length]
      simp
    refine ⟨hinv.nodup, ?_, ?_, ?_, ?_⟩ <;> dsimp only
    · intro j
      by_cases hji : j = i
      · subst hji
        simp only [Function.update_same]
        constructor
        · intro _ h
          cases h
        · intro _
          rw [horder]
          simp
      · rw [Function.update_noteq hji]
        exact hinv.mem_iff j
    · intro j hj
      cases hj
    · intro j k2 hj
      by_cases hji : j = i
      · subst hji
        rw [Function.update_same] at hj
        cases hj
      · rw [Function.update_noteq hji] at hj
        have h2 := (hinv.writing j k2 hj).1
        rw [hl] at h2
        simp only [Option.some.injEq] at h2
        exact absurd h2 (fun hh => hji hh.symm)
    · intro _
      refine ⟨hfile2, ?_⟩
      intro j hj
      by_cases hji : j = i
      · subst hji
        simp [Function.update_same]
      · rw [Function.update_noteq hji]
        rw [horder] at hj
        rcases List.mem_append.mp hj with hj | hj
        · exact hdone j hj
        · rw [List.mem_singleton] at hj
          exact absurd hj hji

theorem sinkInv_reach {n : Nat} {batches : Fin n → List String}
    {c : SinkCfg n} (h : SinkReach n batches c) : SinkInv n batches c := by
  induction h with
  | refl => exact sinkInv_init n batches
  | tail hsteps hstep ih => exact sinkInv_step hstep ih

/-- C7: under any number of concurrent `write_batch` flushes against the
shared output file, in every reachable state at most one flush is in
progress (all others queue on `file_lock`), and once all flushes have
completed the file consists of exactly the flushed batches — each batch
complete and contiguous, in some acquisition order, with no truncated or
interleaved partial writes. -/
theorem write_batch_serializes (n : Nat) (batches : Fin n → List String)
    (c : SinkCfg n) (h : SinkReach n batches c) :
    (∀ i j ki kj, c.stat i = .writing ki → c.stat j = .writing kj → i = j) ∧
    ((∀ i, c.stat i = .done) →
      ∃ order : List (Fin n), order.Nodup ∧ (∀ i, i ∈ order) ∧
        c.file = order.flatMap batches) := by
  have hinv := sinkInv_reach h
  constructor
  · intro i j ki kj hi hj
    have h1 := (hinv.writing i ki hi).1
    have h2 := (hinv.writing j kj hj).1
    rw [h1] at h2
    exact Option.some.inj h2
  · intro hall
    have hlockfree : c.lock = none := by
      cases hlk : c.lock with
      | none => rfl
      | some i =>
        obtain ⟨k, hk⟩ := hinv.lockSome i hlk
        rw [hall i] at hk
        cases hk
    obtain ⟨hfile, -⟩ := hinv.unlocked hlockfree
    refine ⟨c.order, hinv.nodup, ?_, hfile⟩
    intro i
    refine (hinv.mem_iff i).mpr ?_
    intro hcon
    rw [hall i] at hcon
    cases hcon

/-- Two concrete one-line batches for the C7 witness. -/
def twoBatches : Fin 2 → List String :=
  fun i => if i.1 = 0 then ["line-a"] else ["line-b"]

/-- Witness trace for C7: task 0 acquires, writes and releases, then
task 1 does the same. -/
def demoCfg1 : SinkCfg 2 :=
  { stat := Function.update (sinkInit 2).stat 0 (.writing 0), lock := some 0,
    file := (sinkInit 2).file, order := (sinkInit 2).order ++ [0] }

/-- Second state of the witness trace. -/
def demoCfg2 : SinkCfg 2 :=
  { stat := Function.update demoCfg1.stat 0 (.writing (0 + 1)), lock := some 0,
    file := demoCfg1.file ++ [(twoBatches 0).get ⟨0, by decide⟩],
    order := demoCfg1.order }

/-- Third state of the witness trace. -/
def demoCfg3 : SinkCfg 2 :=
  { stat := Function.update demoCfg2.stat 0 .done, lock := none,
    file := demoCfg2.file, order := demoCfg2.order }

/-- Fourth state of the witness trace. -/
def demoCfg4 : SinkCfg 2 :=
  { stat := Function.update demoCfg3.stat 1 (.writing 0), lock := some 1,
    file := demoCfg3.file, order := demoCfg3.order ++ [1] }

/-- Fifth state of the witness trace. -/
def demoCfg5 : SinkCfg 2 :=
  { stat := Function.update demoCfg4.stat 1 (.writing (0 + 1)), lock := some 1,
    file := demoCfg4.file ++ [(twoBatches 1).get ⟨0, by decide⟩],
    order := demoCfg4.order }

/-- Final state of the witness trace. -/
def demoCfg6 : SinkCfg 2 :=
  { stat := Function.update demoCfg5.stat 1 .done, lock := none,
    file := demoCfg5.file, order := demoCfg5.order }

theorem demoReach : SinkReach 2 twoBatches demoCfg6 := by
  have s1 : SinkStep 2 twoBatches (sinkInit 2) demoCfg1 :=
    SinkStep.acquire 0 (sinkInit 2) rfl rfl
  have s2 : SinkStep 2 twoBatches demoCfg1 demoCfg2 :=
    SinkStep.write 0 0 demoCfg1 (by decide) rfl (by decide)
  have s3 : SinkStep 2 twoBatches demoCfg2 demoCfg3 :=
    SinkStep.release 0 demoCfg2 (by decide) rfl
  have s4 : SinkStep 2 twoBatches demoCfg3 demoCfg4 :=
    SinkStep.acquire 1 demoCfg3 (by decide) rfl
  have s5 : SinkStep 2 twoBatches demoCfg4 demoCfg5 :=
    SinkStep.write 1 0 demoCfg4 (by decide) rfl (by decide)
  have s6 : SinkStep 2 twoBatches demoCfg5 demoCfg6 :=
    SinkStep.release 1 demoCfg5 (by decide) rfl
  exact (((((Relation.ReflTransGen.refl.tail s1).tail s2).tail s3).tail
    s4).tail s5).tail s6

/-- Witness for C7: the theorem applied to the concrete two-flush trace,
all hypotheses discharged; the final file holds both batches whole. -/
theorem write_batch_serializes_witness :
    ∃ order : List (Fin 2), order.Nodup ∧ (∀ i, i ∈ order) ∧
      demoCfg6.file = order.flatMap twoBatches :=
  (write_batch_serializes 2 twoBatches demoCfg6 demoReach).2 (by decide)

end R2Data
